import Mathlib

/-!
A verification development for the HNSW vector-index engine of the
astro-vectordb repository (src/hnsw.ts, src/astrovault.ts, src/pqueue.ts,
and the AstroNode record).

Modelling conventions.

* Vectors are `List ℚ`.  The similarity kernels (cosineSimilarity,
  euclideanSimilarity) live in a `similarity` module that is not part of
  the provided sources, so every engine function takes the similarity
  function as an explicit parameter `sim`; in the source this parameter is
  `this.similarityFunction`, which the constructor fixes from the metric
  tag via `getMetric`.  A one-dimensional euclidean kernel, modelled from
  the spec, is provided for concrete runs (on one-dimensional vectors the
  square root of the squared difference is the absolute difference, so the
  spec's formula `1 / (1 + sqrt (sum of squared differences))` is exactly
  rational).

* A JavaScript array that is indexed past its length yields `undefined`,
  and writing past the length leaves holes.  Per-level adjacency is
  therefore `List (Option (List String))`: `none` is a hole / absent
  level, `some l` a present level list.  `jsGet` and `jsSet` model the
  reads and writes.

* `Map<string, AstroNode>` is an insertion-ordered association list;
  `mapSet` on an existing key replaces the value in place.

* The probability table `probs` is built by `set_probs` with
  floating-point `Math.exp`, which has no exact rational counterpart; the
  engine reads the table only through its length (see claim C1), so the
  state carries the table as a `List ℚ` parameter.  For M = 2 the real
  values are 2^-(i+1) and the loop stops when the value drops below 1e-9,
  giving a table of length 29; for M = 16 the values are (15/16)·16^-i
  and the table has length 8.

* JavaScript exceptions are modelled by `Res`: every mutating entry point
  returns `Res α`, and `Res.err` carries the state at the moment of the
  throw (mutations made before a throw persist).  Bounded recursion uses
  explicit fuel; `Res.fuelOut` is a model artifact that never corresponds
  to any source behaviour.
-/

namespace AstroHNSW

/-- Read of a JavaScript array cell: out-of-range and holes give `undefined`. -/
def jsGet (l : List (Option α)) (i : Nat) : Option α :=
  (l[i]?).join

/-- Write of a JavaScript array cell: writing past the end pads with holes. -/
def jsSet (l : List (Option α)) (i : Nat) (v : α) : List (Option α) :=
  match l, i with
  | [], 0 => [some v]
  | [], Nat.succ n => none :: jsSet [] n v
  | _ :: xs, 0 => some v :: xs
  | x :: xs, Nat.succ n => x :: jsSet xs n v

/-- Node record (astronode module): id, vector, top level, per-level
adjacency (with holes), tombstone. -/
structure AstroNode where
  uniqueid : String
  vector : List ℚ
  level : Nat
  neighbors : List (Option (List String))
  deleted : Bool
deriving DecidableEq

/-- The AstroNode constructor: when no adjacency is given it starts empty;
the `M` argument is accepted and unused, as in the source (the sized
initialisation is commented out there). -/
def astroNodeNew (uniqueid : String) (vector : List ℚ) (level : Nat)
    (_M : Nat) : AstroNode :=
  { uniqueid := uniqueid, vector := vector, level := level,
    neighbors := [], deleted := false }

/-- `Map<string, AstroNode>`: insertion-ordered association list. -/
abbrev NodeMap := List (String × AstroNode)

/-- `Map.get`. -/
def mapGet (m : NodeMap) (k : String) : Option AstroNode :=
  match m with
  | [] => none
  | (k', v) :: rest => if k' = k then some v else mapGet rest k

/-- `Map.set`: replaces in place on an existing key, appends otherwise. -/
def mapSet (m : NodeMap) (k : String) (v : AstroNode) : NodeMap :=
  match m with
  | [] => [(k, v)]
  | (k', v') :: rest =>
    if k' = k then (k, v) :: rest else (k', v') :: mapSet rest k v

/-- Update the node stored at a key, leaving the map unchanged when the
key is absent (callers in the source hold the node by reference, so the
absent case never arises there). -/
def mapUpdate (m : NodeMap) (k : String) (f : AstroNode → AstroNode) : NodeMap :=
  match mapGet m k with
  | some n => mapSet m k (f n)
  | none => m

/-- The metric tag of the index. -/
inductive Metric where
  | cosine
  | euclidean
deriving DecidableEq

/-- A similarity kernel: higher is more similar. -/
abbrev SimFun := List ℚ → List ℚ → ℚ

/-- The HNSW index state (hnsw.ts fields). `similarityFunction` is
determined by `metric` through `getMetric` in the source and is therefore
not a separate field here. -/
structure HNSW where
  metric : Metric
  d : Option Nat
  M : Nat
  efConstruction : Nat
  levelMax : Nat
  entryPointId : String
  nodes : NodeMap
  probs : List ℚ
deriving DecidableEq

/-- The HNSW constructor, parametrised by the probability table (see the
header note on `set_probs`): `levelMax` starts at the table length minus
one, the entry point empty, the node map empty. -/
def hnswNew (M efConstruction : Nat) (d : Option Nat) (metric : Metric)
    (probs : List ℚ) : HNSW :=
  { metric := metric, d := d, M := M, efConstruction := efConstruction,
    entryPointId := "", nodes := [], probs := probs,
    levelMax := probs.length - 1 }

/-- Outcome of a mutating operation: `ok` carries the new state, `err`
models a thrown JavaScript exception and carries the state at the throw,
`fuelOut` is the bounded-recursion artifact. -/
inductive Res (α : Type) where
  | ok (s : HNSW) (a : α)
  | err (s : HNSW) (msg : String)
  | fuelOut (s : HNSW)
deriving DecidableEq

/-- The state carried by any outcome. -/
def Res.state : Res α → HNSW
  | .ok s _ => s
  | .err s _ => s
  | .fuelOut s => s

/-- Whether the outcome is a normal completion. -/
def Res.isOk : Res α → Bool
  | .ok _ _ => true
  | _ => false

/-- Whether the outcome is a thrown exception. -/
def Res.isErr : Res α → Bool
  | .err _ _ => true
  | _ => false

/-- The body of selectLevel's forEach callback, threading the mutable `r`:
when `r < p` the callback returns early (without subtracting), otherwise
it subtracts `p` from `r`.  forEach discards the callback's return value,
so the candidate index computed inside the callback is dropped. -/
def selectLevelAux (r : ℚ) : List ℚ → ℚ
  | [] => r
  | p :: ps => if r < p then selectLevelAux r ps else selectLevelAux (r - p) ps

/-- selectLevel (hnsw.ts lines 68-77): runs the forEach walk, whose
result is discarded because `return i` inside a forEach callback does not
return from the enclosing method, then falls through to
`probs.length - 1`. -/
def selectLevel (probs : List ℚ) (r : ℚ) : Nat :=
  let _walk := selectLevelAux r probs
  probs.length - 1

/-- Modelled from the spec (section 4.D level distribution): walk the
table subtracting each p(i) from r until r < p(i) and return that
smallest index, capping at the table length minus one when the walk
exhausts the table. -/
def selectLevelSpec (probs : List ℚ) (r : ℚ) : Nat :=
  go probs r 0
where
  go : List ℚ → ℚ → Nat → Nat
    | [], _, i => i - 1
    | p :: ps, r, i => if r < p then i else go ps (r - p) (i + 1)

/-- The per-level adjacency list of the node at `id`, reading a hole or an
absent node as the empty list. -/
def nbAt (s : HNSW) (id : String) (l : Nat) : List String :=
  match mapGet s.nodes id with
  | some n => (jsGet n.neighbors l).getD []
  | none => []

/-- Overwrite one level of one node's adjacency. -/
def setNb (s : HNSW) (id : String) (l : Nat) (nb : List String) : HNSW :=
  let upd := fun (n : AstroNode) => { n with neighbors := jsSet n.neighbors l nb }
  { s with nodes := mapUpdate s.nodes id upd }

/-- `if (!node.neighbors[level]) node.neighbors[level] = []`. -/
def lazyInitNb (s : HNSW) (id : String) (l : Nat) : HNSW :=
  match mapGet s.nodes id with
  | some n => if jsGet n.neighbors l = none then setNb s id l [] else s
  | none => s

/-- PriorityQueue.push with the engine's similarity comparator: the queue
is a list sorted by key descending (most similar first); a new item is
inserted before existing items with a key less than or equal to its own.
Keys are the similarity to the fixed reference vector, computed at push
time; vectors never change while a queue is alive, so the stored key is
the value the comparator recomputes in the source. -/
def pqPush : List (ℚ × String) → ℚ → String → List (ℚ × String)
  | [], k, id => [(k, id)]
  | x :: xs, k, id => if k < x.1 then x :: pqPush xs k id else (k, id) :: x :: xs

/-- The seed phase of searchLayer: every entry point not yet visited is
marked visited and pushed into both the candidate and the result queue.
`none` models the TypeError thrown when an entry reference is undefined
(the caller looked up an id that is not in the node map). -/
def slSeed (sim : SimFun) (s : HNSW) (query : List ℚ) :
    List String → List String → List (ℚ × String) → List (ℚ × String) →
    Option (List String × List (ℚ × String) × List (ℚ × String))
  | [], visited, cand, found => some (visited, cand, found)
  | e :: rest, visited, cand, found =>
    match mapGet s.nodes e with
    | none => none
    | some n =>
      if visited.contains e then slSeed sim s query rest visited cand found
      else
        slSeed sim s query rest (visited ++ [e])
          (pqPush cand (sim query n.vector) e)
          (pqPush found (sim query n.vector) e)

/-- The inner neighbor loop of searchLayer: each non-empty unvisited
neighbor id is marked visited, looked up (`none` models the TypeError on
a dangling id), and pushed into both queues when the result queue is
below `ef` or the neighbor beats the current furthest result; the result
queue is trimmed back to `ef` from the far end.  Reading the furthest
result happens only when the size test fails, matching the
short-circuit in the source; `none` also models the TypeError of reading
`furthest.vector` when the result queue is empty (possible only when
`ef = 0`). -/
def slNbrs (sim : SimFun) (s : HNSW) (query : List ℚ) (ef : Nat) :
    List String → List String → List (ℚ × String) → List (ℚ × String) →
    Option (List String × List (ℚ × String) × List (ℚ × String))
  | [], visited, cand, found => some (visited, cand, found)
  | nb :: rest, visited, cand, found =>
    if nb ≠ "" ∧ ¬ visited.contains nb then
      match mapGet s.nodes nb with
      | none => none
      | some nn =>
        let nsim := sim query nn.vector
        let push : Bool :=
          if found.length < ef then true
          else match found.getLast? with
               | none => true
               | some f => nsim > f.1
        if found.length ≥ ef ∧ found.getLast? = none then none
        else if push then
          let found' := pqPush found nsim nb
          let found'' := if found'.length > ef then found'.dropLast else found'
          slNbrs sim s query ef rest (visited ++ [nb]) (pqPush cand nsim nb) found''
        else slNbrs sim s query ef rest (visited ++ [nb]) cand found
    else slNbrs sim s query ef rest visited cand found

/-- The main loop of searchLayer: pop the most similar candidate, stop
when it is less similar than the furthest result, lazily initialise the
popped node's adjacency at this level, then run the neighbor loop. -/
def slLoop (sim : SimFun) (query : List ℚ) (ef level : Nat) :
    Nat → HNSW → List String → List (ℚ × String) → List (ℚ × String) →
    Res (List (ℚ × String))
  | 0, s, _, _, _ => .fuelOut s
  | Nat.succ fuel, s, visited, cand, found =>
    match cand with
    | [] => .ok s found
    | (ck, cid) :: crest =>
      match found.getLast? with
      | none => .err s "TypeError"
      | some f =>
        if ck < f.1 then .ok s found
        else
          match mapGet s.nodes cid with
          | none => .err s "TypeError"
          | some cnode =>
            let s1 := if jsGet cnode.neighbors level = none
                      then setNb s cid level [] else s
            let nbrs := (jsGet cnode.neighbors level).getD []
            match slNbrs sim s1 query ef nbrs visited crest found with
            | none => .err s1 "TypeError"
            | some (v', c', f') => slLoop sim query ef level fuel s1 v' c' f'

/-- searchLayer (hnsw.ts lines 301-375): bounded best-first traversal of
one layer, returning the result queue (most similar first). -/
def searchLayer (sim : SimFun) (s : HNSW) (query : List ℚ) (eps : List String)
    (ef level fuel : Nat) : Res (List (ℚ × String)) :=
  match slSeed sim s query eps [] [] [] with
  | none => .err s "TypeError"
  | some (visited, cand, found) => slLoop sim query ef level fuel s visited cand found

/-- selectNeighbors (hnsw.ts lines 419-427): the first
`numbNeighborsToReturn` entries of the queue in comparator order. -/
def selectNeighbors (nearestNeighbors : List (ℚ × String))
    (numbNeighborsToReturn : Nat) : List (ℚ × String) :=
  if numbNeighborsToReturn ≥ nearestNeighbors.length then nearestNeighbors
  else nearestNeighbors.take numbNeighborsToReturn

/-- getTopBeam (hnsw.ts lines 408-411). -/
def getTopBeam (candidates : List (ℚ × String)) (beamSize : Nat) :
    List (ℚ × String) :=
  if beamSize ≥ candidates.length then candidates
  else candidates.take beamSize

/-- addBidirectionalConnections (hnsw.ts lines 436-457): initialise both
levels, filter empty-string ids from both sides, then add each id to the
other side's list when not already present.  The two nodes are handled
through the state at each step, which reproduces the aliasing of the
source when both arguments are the same node object. -/
def addBidirectionalConnections (s : HNSW) (idA idB : String) (level : Nat) :
    HNSW :=
  let s1 := lazyInitNb s idA level
  let s2 := lazyInitNb s1 idB level
  let s3 := setNb s2 idA level ((nbAt s2 idA level).filter (fun u => u ≠ ""))
  let s4 := setNb s3 idB level ((nbAt s3 idB level).filter (fun u => u ≠ ""))
  let la := nbAt s4 idA level
  let s5 := if idB ∈ la then s4 else setNb s4 idA level (la ++ [idB])
  let lb := nbAt s5 idB level
  if idA ∈ lb then s5 else setNb s5 idB level (lb ++ [idA])

/-- shrinkConnectionsIfNeeded (hnsw.ts lines 465-489): when the level's
list exceeds M, rank the ids that resolve to nodes by similarity to the
shrinking node and keep the top M.  Reading `.length` of an absent level
throws.  The absent-node case is unreachable from the source, which
receives the node itself. -/
def shrinkConnectionsIfNeeded (sim : SimFun) (s : HNSW) (id : String)
    (level : Nat) : Res Unit :=
  match mapGet s.nodes id with
  | none => .ok s ()
  | some node =>
    match jsGet node.neighbors level with
    | none => .err s "TypeError"
    | some nbrs =>
      if nbrs.length > s.M then
        let oldNeighbors := nbrs.foldl
          (fun q nbId =>
            match mapGet s.nodes nbId with
            | some nn => pqPush q (sim node.vector nn.vector) nbId
            | none => q) []
        let newNeighborIds := (selectNeighbors oldNeighbors s.M).map Prod.snd
        .ok (setNb s id level newNeighborIds) ()
      else .ok s ()

/-- The descending level list [a, a-1, ..., b] (empty when a < b). -/
def downTo (a b : Nat) : List Nat :=
  (List.range (a + 1 - b)).map (fun k => a - k)

/-- The greedy-descent loop of addNodeToGraphOptimized (levels above the
insertion level, ef = 1): the entry points are replaced by the single
popped best result when one exists. -/
def angLoop1 (sim : SimFun) (query : List ℚ) (fuel : Nat) :
    List Nat → HNSW → List String → Res (List String)
  | [], s, eps => .ok s eps
  | i :: rest, s, eps =>
    match searchLayer sim s query eps 1 i fuel with
    | .err s' m => .err s' m
    | .fuelOut s' => .fuelOut s'
    | .ok s' out =>
      let eps' := match out with
                  | [] => eps
                  | c :: _ => [c.2]
      angLoop1 sim query fuel rest s' eps'

/-- The shrink pass over the selected peers (second j-loop of
addNodeToGraphOptimized): peers that no longer resolve are skipped. -/
def shrinkFold (sim : SimFun) : HNSW → List String → Nat → Res Unit
  | s, [], _ => .ok s ()
  | s, nid :: rest, i =>
    match mapGet s.nodes nid with
    | none => shrinkFold sim s rest i
    | some _ =>
      match shrinkConnectionsIfNeeded sim s nid i with
      | .ok s' _ => shrinkFold sim s' rest i
      | r => r

/-- The wiring loop of addNodeToGraphOptimized (levels from
min(levelMax, insertion level) down to 0): search the layer with
efConstruction, select up to M peers, link bidirectionally, shrink each
peer, and carry the whole result queue as the next entry points. -/
def angLoop2 (sim : SimFun) (query : List ℚ) (nodeId : String) (fuel : Nat) :
    List Nat → HNSW → List String → Res Unit
  | [], s, _ => .ok s ()
  | i :: rest, s, eps =>
    match searchLayer sim s query eps s.efConstruction i fuel with
    | .err s' m => .err s' m
    | .fuelOut s' => .fuelOut s'
    | .ok s' out =>
      let selected := (selectNeighbors out s'.M).map Prod.snd
      let s2 := selected.foldl
        (fun st nid =>
          match mapGet st.nodes nid with
          | none => st
          | some _ => addBidirectionalConnections st nodeId nid i) s'
      match shrinkFold sim s2 selected i with
      | .ok s3 _ => angLoop2 sim query nodeId fuel rest s3 (out.map Prod.snd)
      | r => r

/-- addNodeToGraphOptimized (hnsw.ts lines 82-147).  When the entry point
is empty the new node becomes the entry point and nothing else happens.
The final level-max branch is kept although addPoint raises levelMax
before calling here, which makes it dead along that path. -/
def addNodeToGraphOptimized (sim : SimFun) (s : HNSW) (nodeId : String)
    (nodeInsertionLevel fuel : Nat) : Res Unit :=
  if s.entryPointId = "" then .ok { s with entryPointId := nodeId } ()
  else
    match mapGet s.nodes nodeId with
    | none => .err s "TypeError"
    | some node =>
      let eps0 := match mapGet s.nodes s.entryPointId with
                  | some _ => [s.entryPointId]
                  | none => []
      match angLoop1 sim node.vector fuel
          (downTo s.levelMax (nodeInsertionLevel + 1)) s eps0 with
      | .err s' m => .err s' m
      | .fuelOut s' => .fuelOut s'
      | .ok s1 eps1 =>
        match angLoop2 sim node.vector nodeId fuel
            (downTo (min s1.levelMax nodeInsertionLevel) 0) s1 eps1 with
        | .ok s2 _ =>
          if s2.levelMax < nodeInsertionLevel then
            .ok { s2 with levelMax := nodeInsertionLevel, entryPointId := nodeId } ()
          else .ok s2 ()
        | r => r

/-- addPoint (hnsw.ts lines 154-173): empty vectors are silently skipped;
a vector whose length differs from an already-set dimension throws before
any mutation; otherwise the dimension is set, a level is drawn (`r` is
the Math.random sample), a fresh node overwrites the id's slot, levelMax
is raised to the node's level, and the node is wired into the graph. -/
def addPoint (sim : SimFun) (s : HNSW) (uniqueid : String) (vector : List ℚ)
    (r : ℚ) (fuel : Nat) : Res Unit :=
  if vector = [] then .ok s ()
  else if (match s.d with | some dd => vector.length != dd | none => false : Bool)
  then .err s "All vectors must be of the same dimension"
  else
    let s1 := { s with d := some vector.length }
    let nodeInsertionLevel := selectLevel s1.probs r
    let node := astroNodeNew uniqueid vector nodeInsertionLevel s1.M
    let s2 := { s1 with nodes := mapSet s1.nodes uniqueid node }
    let s3 := { s2 with levelMax := max s2.levelMax node.level }
    addNodeToGraphOptimized sim s3 uniqueid nodeInsertionLevel fuel

/-- removePoint (hnsw.ts lines 212-226): tombstone the node when present,
silently do nothing otherwise; the entry point is untouched. -/
def removePoint (s : HNSW) (uniqueid : String) : HNSW :=
  match mapGet s.nodes uniqueid with
  | none => s
  | some node =>
    { s with nodes := mapSet s.nodes uniqueid { node with deleted := true } }

/-- updatePoint (hnsw.ts lines 497-517): unknown ids are promoted to an
insert; otherwise the stored record is tombstoned and a new node with the
same id is inserted. -/
def updatePoint (sim : SimFun) (s : HNSW) (uniqueid : String)
    (newVector : List ℚ) (r : ℚ) (fuel : Nat) : Res Unit :=
  match mapGet s.nodes uniqueid with
  | none => addPoint sim s uniqueid newVector r fuel
  | some node =>
    let s1 := { s with nodes := mapSet s.nodes uniqueid { node with deleted := true } }
    addPoint sim s1 uniqueid newVector r fuel

/-- A result entry of searchKNNOptimized: the spread copy of the node
together with its score. -/
structure ScoredNode where
  node : AstroNode
  score : ℚ
deriving DecidableEq

/-- The push phase of updateBestCandidates (hnsw.ts lines 384-400):
tombstoned candidates are skipped, the rest pushed by similarity to the
query.  `none` models the unreachable dangling-id case (the source holds
the nodes by reference). -/
def ubcPush (sim : SimFun) (s : HNSW) (query : List ℚ) :
    List (ℚ × String) → List (ℚ × String) → Option (List (ℚ × String))
  | best, [] => some best
  | best, c :: rest =>
    match mapGet s.nodes c.2 with
    | none => none
    | some n =>
      if n.deleted then ubcPush sim s query best rest
      else ubcPush sim s query (pqPush best (sim query n.vector) c.2) rest

/-- updateBestCandidates: push the new candidates, then discard the
furthest entries until at most `maxSize` remain. -/
def updateBestCandidates (sim : SimFun) (s : HNSW) (query : List ℚ)
    (best newCandidates : List (ℚ × String)) (maxSize : Nat) :
    Option (List (ℚ × String)) :=
  (ubcPush sim s query best newCandidates).map (fun b => b.take maxSize)

/-- The final scoring pass of searchKNNOptimized: each queue entry is
turned into a spread copy of its node with a freshly computed score. -/
def scoreAll (sim : SimFun) (s : HNSW) (query : List ℚ) :
    List (ℚ × String) → Option (List ScoredNode)
  | [] => some []
  | c :: rest =>
    match mapGet s.nodes c.2 with
    | none => none
    | some n =>
      (scoreAll sim s query rest).map
        (fun l => { node := n, score := sim query n.vector } :: l)

/-- The per-level loop of searchKNNOptimized (levels levelMax down to 0):
search the layer with min(ef, beamSize), merge into the best candidates
truncated at max(K, ef), and keep the top beam as the next entry
points. -/
def sknnLevels (sim : SimFun) (query : List ℚ) (K ef beamSize fuel : Nat) :
    List Nat → HNSW → List String → List (ℚ × String) →
    Res (List String × List (ℚ × String))
  | [], s, beam, best => .ok s (beam, best)
  | lvl :: rest, s, beam, best =>
    match searchLayer sim s query beam (min ef beamSize) lvl fuel with
    | .err s' m => .err s' m
    | .fuelOut s' => .fuelOut s'
    | .ok s' out =>
      match updateBestCandidates sim s' query best out (max K ef) with
      | none => .err s' "TypeError"
      | some best' =>
        sknnLevels sim query K ef beamSize fuel rest s'
          ((getTopBeam out beamSize).map Prod.snd) best'

/-- searchKNNOptimized (hnsw.ts lines 241-299): empty entry point returns
the empty list; otherwise every level from levelMax down to 0 is
searched with a narrow beam, a final wide pass runs at level 0, and the
best candidates are scored, filtered by strict score threshold and by
tombstone, and cut to at most K. -/
def searchKNNOptimized (sim : SimFun) (s : HNSW) (query : List ℚ) (K : Nat)
    (similarityStrength : ℚ) (ef beamSize fuel : Nat) :
    Res (List ScoredNode) :=
  if s.entryPointId = "" then .ok s []
  else
    match sknnLevels sim query K ef beamSize fuel (downTo s.levelMax 0) s
        [s.entryPointId] [] with
    | .err s' m => .err s' m
    | .fuelOut s' => .fuelOut s'
    | .ok s1 (beam, best) =>
      match searchLayer sim s1 query beam ef 0 fuel with
      | .err s' m => .err s' m
      | .fuelOut s' => .fuelOut s'
      | .ok s2 bottom =>
        match updateBestCandidates sim s2 query best bottom (max K ef) with
        | none => .err s2 "TypeError"
        | some best2 =>
          match scoreAll sim s2 query best2 with
          | none => .err s2 "TypeError"
          | some scored =>
            let filtered := scored.filter
              (fun e => decide (similarityStrength < e.score) && !e.node.deleted)
            .ok s2 (if filtered.length > K then filtered.take K else filtered)

/-- The serialized form of a node (AstroNode.toJSON). -/
structure NodeJson where
  uniqueid : String
  level : Nat
  vector : List ℚ
  neighbors : List (Option (List String))
  deleted : Bool
deriving DecidableEq

/-- AstroNode.toJSON: the vector is copied as a plain sequence, each
present adjacency level is copied verbatim and holes are preserved (a
JavaScript map over an array keeps its holes). -/
def AstroNode.toJSON (n : AstroNode) : NodeJson :=
  { uniqueid := n.uniqueid, level := n.level, vector := n.vector,
    neighbors := n.neighbors.map (Option.map (fun l => l)),
    deleted := n.deleted }

/-- AstroNode.parse: rebuilds the node from the serialized fields; the
adjacency is taken as given (always an array here, hence used). -/
def AstroNode.parse (j : NodeJson) : AstroNode :=
  { uniqueid := j.uniqueid, vector := j.vector, level := j.level,
    neighbors := j.neighbors, deleted := j.deleted }

/-- The serialized form of an index (HNSW.toJSON): the metric is not part
of it. -/
structure HNSWJson where
  M : Nat
  efConstruction : Nat
  levelMax : Nat
  entryPointId : String
  nodes : List (String × NodeJson)
deriving DecidableEq

/-- HNSW.toJSON (hnsw.ts lines 781-792). -/
def HNSW.toJSON (s : HNSW) : HNSWJson :=
  { M := s.M, efConstruction := s.efConstruction, levelMax := s.levelMax,
    entryPointId := s.entryPointId,
    nodes := s.nodes.map (fun p => (p.1, p.2.toJSON)) }

/-- HNSW.fromJSON (hnsw.ts lines 794-810): a fresh index is built with
`new HNSW(json.M, json.efConstruction)` — the constructor is called
without a metric argument and therefore uses the cosine default, and
recomputes the probability table from M (`probs` stands for that
recomputation, see the header note); levelMax, entryPointId and the node
entries are then restored, each vector narrowed to 32-bit floats
(`narrow` models the Float32Array conversion). -/
def HNSW.fromJSON (j : HNSWJson) (probs : List ℚ) (narrow : ℚ → ℚ) : HNSW :=
  let s := hnswNew j.M j.efConstruction none Metric.cosine probs
  let parsed := fun (p : String × NodeJson) =>
    AstroNode.parse { p.2 with vector := p.2.vector.map narrow }
  { s with levelMax := j.levelMax,
           entryPointId := j.entryPointId,
           nodes := j.nodes.foldl (fun m p => mapSet m p.1 (parsed p)) [] }

/-- buildIndex (hnsw.ts lines 769-779): clear nodes, levelMax and the
entry point, then insert every item; `r` is the level sample used for
each insertion (the drawn level does not depend on it, claim C1). -/
def buildIndex (sim : SimFun) (s : HNSW) (data : List (String × List ℚ))
    (r : ℚ) (fuel : Nat) : Res Unit :=
  let s1 := { s with nodes := [], levelMax := 0, entryPointId := "" }
  go s1 data
where
  go : HNSW → List (String × List ℚ) → Res Unit
    | s, [] => .ok s ()
    | s, (id, v) :: rest =>
      match addPoint sim s id v r fuel with
      | .ok s' _ => go s' rest
      | other => other

/-- The sequential re-insertion chain shared by rebuildGraphNodes and its
spec-side variants: a throwing addPoint stops the chain (the rejected
promise breaks the setTimeout rescheduling). -/
def addPointFold (sim : SimFun) (r : ℚ) (fuel : Nat) :
    HNSW → List AstroNode → Res Unit
  | s, [] => .ok s ()
  | s, n :: rest =>
    match addPoint sim s n.uniqueid n.vector r fuel with
    | .ok s' _ => addPointFold sim r fuel s' rest
    | other => other

/-- The processNode recursion of rebuildGraphNodes: a record is
re-inserted when it is not tombstoned and its id is truthy (its vector, a
typed or plain array, is always truthy). -/
def rebuildProcess (sim : SimFun) (r : ℚ) (fuel : Nat) :
    HNSW → List AstroNode → Res Unit
  | s, [] => .ok s ()
  | s, n :: rest =>
    if n.deleted = false ∧ n.uniqueid ≠ "" then
      match addPoint sim s n.uniqueid n.vector r fuel with
      | .ok s' _ => rebuildProcess sim r fuel s' rest
      | other => other
    else rebuildProcess sim r fuel s rest

/-- rebuildGraphNodes (astrovault.ts lines 87-132): snapshot the node
records, clear the node map and the entry point (levelMax is left as it
is), then re-insert sequentially via addPoint.  The progress callback has
no effect on the state and is omitted. -/
def rebuildGraphNodes (sim : SimFun) (s : HNSW) (r : ℚ) (fuel : Nat) :
    Res Unit :=
  let oldNodes := s.nodes.map Prod.snd
  let s1 := { s with nodes := [], entryPointId := "" }
  rebuildProcess sim r fuel s1 oldNodes

/-- Modelled from the claim C8 wording: reset nodes, levelMax (to 0) and
entryPointId, then re-insert, via addPoint with original id and vector,
exactly those prior records that are not tombstoned. -/
def rebuildGraphNodesClaim (sim : SimFun) (s : HNSW) (r : ℚ) (fuel : Nat) :
    Res Unit :=
  let oldNodes := s.nodes.map Prod.snd
  let s1 := { s with nodes := [], entryPointId := "", levelMax := 0 }
  addPointFold sim r fuel s1 (oldNodes.filter (fun n => !n.deleted))

/-- The amended description of rebuildGraphNodes: nodes and entryPointId
are reset but levelMax is left unchanged, and the records re-inserted are
exactly those that are not tombstoned and have a non-empty id. -/
def rebuildGraphNodesAmended (sim : SimFun) (s : HNSW) (r : ℚ) (fuel : Nat) :
    Res Unit :=
  let oldNodes := s.nodes.map Prod.snd
  let s1 := { s with nodes := [], entryPointId := "" }
  addPointFold sim r fuel s1
    (oldNodes.filter (fun n => !n.deleted && n.uniqueid ≠ ""))

/-- Modelled from the spec (section 4.A), for concrete runs: the
euclidean kernel 1 / (1 + sqrt (sum of squared differences)) restricted
to one-dimensional vectors, where the square root is the absolute
difference and the value is exactly rational. -/
def euclidSim1 : SimFun := fun a b => 1 / (1 + |a.headD 0 - b.headD 0|)

/-- The probability table for M = 2: the real values of set_probs are
2^-(i+1), and the 1e-9 cutoff stops the loop after 29 entries (2^-30 is
the first value below it); the engine reads the table only through its
length. -/
def probsM2 : List ℚ := (List.range 29).map (fun i => 1 / 2 ^ (i + 1))

/-- The probability table for the default M = 16: the real values are
(15/16) · 16^-i and the 1e-9 cutoff stops the loop after 8 entries. -/
def probsM16 : List ℚ := (List.range 8).map (fun i => (15 / 16) / 16 ^ i)

/-- Symmetric adjacency (claim C2, spec section 3 invariant 1): for every
live id x, every level up to its top level, and every y in its adjacency,
y is a stored node and x is in y's adjacency at the same level.  The
level quantifier runs over `List.range` to keep the predicate decidable;
membership in the range list is the same as being at most the top
level. -/
def SymAdj (s : HNSW) : Prop :=
  ∀ p ∈ s.nodes, p.2.deleted = false →
    ∀ l ∈ List.range (p.2.level + 1),
      ∀ y ∈ (jsGet p.2.neighbors l).getD [],
        (mapGet s.nodes y).isSome = true ∧ p.1 ∈ nbAt s y l

instance : DecidablePred SymAdj := fun s => by
  unfold SymAdj; infer_instance

/-- No self-loop (claim C6, spec section 3 invariant 3): no id appears in
its own adjacency at any level.  Levels at or beyond the adjacency array
length hold no ids, so the range quantifier covers every level. -/
def NoSelfLoop (s : HNSW) : Prop :=
  ∀ p ∈ s.nodes, ∀ l ∈ List.range p.2.neighbors.length,
    p.1 ∉ (jsGet p.2.neighbors l).getD []

instance : DecidablePred NoSelfLoop := fun s => by
  unfold NoSelfLoop; infer_instance

/-! Basic lemmas about the array, map and queue primitives. -/

theorem jsGet_jsSet_self (l : List (Option α)) (i : Nat) (v : α) :
    jsGet (jsSet l i v) i = some v := by
  induction l generalizing i with
  | nil =>
    induction i with
    | zero => simp [jsSet, jsGet]
    | succ n ih => simpa [jsSet, jsGet] using ih
  | cons x xs ih =>
    cases i with
    | zero => simp [jsSet, jsGet]
    | succ n => simpa [jsSet, jsGet] using ih n

theorem jsGet_jsSet_ne (l : List (Option α)) (i j : Nat) (v : α) (h : j ≠ i) :
    jsGet (jsSet l i v) j = jsGet l j := by
  induction l generalizing i j with
  | nil =>
    induction i generalizing j with
    | zero =>
      cases j with
      | zero => exact absurd rfl h
      | succ m => simp [jsSet, jsGet]
    | succ n ih =>
      cases j with
      | zero => simp [jsSet, jsGet]
      | succ m =>
        have hne : m ≠ n := by omega
        have := ih m hne
        simpa [jsSet, jsGet] using this
  | cons x xs ih =>
    cases i with
    | zero =>
      cases j with
      | zero => exact absurd rfl h
      | succ m => simp [jsSet, jsGet]
    | succ n =>
      cases j with
      | zero => simp [jsSet, jsGet]
      | succ m =>
        have hne : m ≠ n := by omega
        have := ih n m hne
        simpa [jsSet, jsGet] using this

theorem mapGet_mapSet_self (m : NodeMap) (k : String) (v : AstroNode) :
    mapGet (mapSet m k v) k = some v := by
  induction m with
  | nil => simp [mapSet, mapGet]
  | cons p rest ih =>
    by_cases h : p.1 = k
    · simp [mapSet, mapGet, h]
    · simp [mapSet, mapGet, h, ih]

theorem mapGet_mapSet_ne (m : NodeMap) (k q : String) (v : AstroNode)
    (h : q ≠ k) : mapGet (mapSet m k v) q = mapGet m q := by
  have hkq : ¬ k = q := fun hc => h hc.symm
  induction m with
  | nil => simp [mapSet, mapGet, hkq]
  | cons p rest ih =>
    by_cases hp : p.1 = k
    · subst hp
      simp [mapSet, mapGet, hkq]
    · simp only [mapSet, if_neg hp, mapGet]
      by_cases hq : p.1 = q <;> simp [hq, ih]

theorem map_fst_mapSet_of_isSome (m : NodeMap) (k : String) (v : AstroNode)
    (h : (mapGet m k).isSome = true) :
    (mapSet m k v).map Prod.fst = m.map Prod.fst := by
  induction m with
  | nil => simp [mapGet] at h
  | cons p rest ih =>
    by_cases hp : p.1 = k
    · simp [mapSet, hp]
    · simp only [mapGet, if_neg hp] at h
      simp [mapSet, hp, ih h]

theorem mapSet_of_get_none (m : NodeMap) (k : String) (v : AstroNode)
    (h : mapGet m k = none) : mapSet m k v = m ++ [(k, v)] := by
  induction m with
  | nil => rfl
  | cons p rest ih =>
    by_cases hp : p.1 = k
    · simp [mapGet, hp] at h
    · simp only [mapGet, if_neg hp] at h
      simp [mapSet, hp, ih h]

theorem mapGet_mapUpdate_self (m : NodeMap) (k : String) (f : AstroNode → AstroNode) :
    mapGet (mapUpdate m k f) k = (mapGet m k).map f := by
  unfold mapUpdate
  cases h : mapGet m k with
  | none => simp [h]
  | some n => simp [mapGet_mapSet_self]

theorem mapGet_mapUpdate_ne (m : NodeMap) (k q : String)
    (f : AstroNode → AstroNode) (h : q ≠ k) :
    mapGet (mapUpdate m k f) q = mapGet m q := by
  unfold mapUpdate
  cases hg : mapGet m k with
  | none => rfl
  | some n => simp [mapGet_mapSet_ne _ _ _ _ h]

theorem map_fst_mapUpdate (m : NodeMap) (k : String) (f : AstroNode → AstroNode) :
    (mapUpdate m k f).map Prod.fst = m.map Prod.fst := by
  unfold mapUpdate
  cases hg : mapGet m k with
  | none => rfl
  | some n => exact map_fst_mapSet_of_isSome _ _ _ (by simp [hg])

theorem length_pqPush (q : List (ℚ × String)) (k : ℚ) (id : String) :
    (pqPush q k id).length = q.length + 1 := by
  induction q with
  | nil => rfl
  | cons x xs ih =>
    by_cases h : k < x.1 <;> simp [pqPush, h, ih]

theorem mem_pqPush (q : List (ℚ × String)) (k : ℚ) (id : String)
    (x : ℚ × String) : x ∈ pqPush q k id ↔ x = (k, id) ∨ x ∈ q := by
  induction q with
  | nil => simp [pqPush]
  | cons y ys ih =>
    by_cases h : k < y.1
    · simp only [pqPush, if_pos h, List.mem_cons, ih]
      tauto
    · simp only [pqPush, if_neg h, List.mem_cons]

theorem pairwise_pqPush (q : List (ℚ × String)) (k : ℚ) (id : String)
    (h : q.Pairwise (fun a b => b.1 ≤ a.1)) :
    (pqPush q k id).Pairwise (fun a b => b.1 ≤ a.1) := by
  induction q with
  | nil => simp [pqPush]
  | cons y ys ih =>
    rcases List.pairwise_cons.mp h with ⟨hy, hys⟩
    by_cases hk : k < y.1
    · rw [pqPush, if_pos hk]
      refine List.pairwise_cons.mpr ⟨?_, ih hys⟩
      intro z hz
      rcases (mem_pqPush ys k id z).mp hz with rfl | hzys
      · exact le_of_lt hk
      · exact hy z hzys
    · rw [pqPush, if_neg hk]
      refine List.pairwise_cons.mpr ⟨?_, h⟩
      intro z hz
      rcases List.mem_cons.mp hz with rfl | hzys
      · exact le_of_not_lt hk
      · exact le_trans (hy z hzys) (le_of_not_lt hk)

/-! Claim C1. -/

/-- Claim C1: the level draw.  The claim says selectLevel walks the
probability table and returns the smallest index i with r < p(i), so that
some samples draw level 0 and the cap is hit only when the walk exhausts
the table.  In the source the walk's early return is inside a forEach
callback and is discarded, so selectLevel returns the table cap for every
sample: on the table [1/2, 1/4, 1/8] with sample r = 0 the code yields 2
while the documented walk (selectLevelSpec) yields 0, and the code yields
2 for every sample r. -/
theorem claim1_selectLevel_ignores_the_sample :
    selectLevel [1/2, 1/4, 1/8] 0 = 2 ∧
    selectLevelSpec [1/2, 1/4, 1/8] 0 = 0 ∧
    ∀ r : ℚ, selectLevel [1/2, 1/4, 1/8] r = 2 :=
  ⟨rfl, by with_unfolding_all decide, fun _ => rfl⟩

/-! Claim C5. -/

/-- Claim C5: atomicity of dimension rejection.  When the dimension is
already set and a non-empty vector of a different length is inserted,
addPoint throws the dimension error and the carried state is exactly the
input state: nodes, adjacency, entry point, levelMax and the dimension
are untouched. -/
theorem claim5_dimension_mismatch_atomic (sim : SimFun) (s : HNSW)
    (id : String) (v : List ℚ) (r : ℚ) (fuel dd : Nat) (hd : s.d = some dd)
    (hne : v ≠ []) (hlen : v.length ≠ dd) :
    addPoint sim s id v r fuel
      = Res.err s "All vectors must be of the same dimension" := by
  unfold addPoint
  rw [if_neg hne]
  have hb : (match s.d with | some dd => v.length != dd | none => false) = true := by
    rw [hd]
    simpa using hlen
  rw [if_pos hb]

/-- Witness for C5: on an index whose dimension is 3, inserting a
two-dimensional vector throws and returns the unchanged state. -/
theorem claim5_witness :
    addPoint euclidSim1 (hnswNew 16 200 (some 3) Metric.cosine probsM16)
        "y" [1, 0] 0 9
      = Res.err (hnswNew 16 200 (some 3) Metric.cosine probsM16)
          "All vectors must be of the same dimension" :=
  claim5_dimension_mismatch_atomic euclidSim1 _ "y" [1, 0] 0 9 3 rfl
    (by decide) (by decide)

/-! Claim C7. -/

/-- Counterexample for C7: an index constructed with the euclidean metric
comes back from the toJSON/fromJSON round trip with the cosine metric
(the similarity function is getMetric of the metric tag, so the restored
index does not use euclidean similarity). -/
theorem claim7_counterexample :
    (hnswNew 16 200 none Metric.euclidean probsM16).metric = Metric.euclidean
    ∧ (HNSW.fromJSON
        (HNSW.toJSON (hnswNew 16 200 none Metric.euclidean probsM16))
        probsM16 (fun x => x)).metric = Metric.cosine
    ∧ Metric.cosine ≠ Metric.euclidean := by
  refine ⟨rfl, rfl, by decide⟩

/-- Claim C7 as amended: deserialization does not reconstruct the metric.
toJSON omits a metric tag and fromJSON calls the constructor without a
metric argument, so every restored index uses the default cosine
similarity function, whatever the metric of the serialized index was.
(The constructor called by fromJSON does rebuild the level probability
table from the serialized M; that floating-point computation is the
`probs` parameter here, see the header note.) -/
theorem claim7_fromJSON_always_cosine (j : HNSWJson) (probs : List ℚ)
    (narrow : ℚ → ℚ) : (HNSW.fromJSON j probs narrow).metric = Metric.cosine :=
  rfl

/-! Frame machinery: search only lazily materialises empty adjacency
lists, everything else in the state is untouched. -/

/-- The node-level frame of a search: identity, vector, level and
tombstone are unchanged, and each adjacency level is either unchanged or
was a hole that became an empty list (the lazy initialisation in
searchLayer). -/
def NodeFrame (n n' : AstroNode) : Prop :=
  n'.uniqueid = n.uniqueid ∧ n'.vector = n.vector ∧ n'.level = n.level ∧
  n'.deleted = n.deleted ∧
  ∀ l, jsGet n'.neighbors l = jsGet n.neighbors l ∨
       (jsGet n.neighbors l = none ∧ jsGet n'.neighbors l = some [])

/-- The map-level frame: same keys in the same order, each node related
by `NodeFrame`. -/
def NodesFrame (m m' : NodeMap) : Prop :=
  List.Forall₂ (fun p q => q.1 = p.1 ∧ NodeFrame p.2 q.2) m m'

/-- The state-level frame of a search: every scalar field unchanged, the
node map related by `NodesFrame`. -/
def StateFrame (s s' : HNSW) : Prop :=
  s'.metric = s.metric ∧ s'.d = s.d ∧ s'.M = s.M ∧
  s'.efConstruction = s.efConstruction ∧ s'.levelMax = s.levelMax ∧
  s'.entryPointId = s.entryPointId ∧ s'.probs = s.probs ∧
  NodesFrame s.nodes s'.nodes

theorem NodeFrame.refl_node (n : AstroNode) : NodeFrame n n :=
  ⟨rfl, rfl, rfl, rfl, fun _ => Or.inl rfl⟩

theorem NodeFrame.comp_node {a b c : AstroNode} (h1 : NodeFrame a b)
    (h2 : NodeFrame b c) : NodeFrame a c := by
  obtain ⟨u1, v1, l1, d1, n1⟩ := h1
  obtain ⟨u2, v2, l2, d2, n2⟩ := h2
  refine ⟨u2.trans u1, v2.trans v1, l2.trans l1, d2.trans d1, fun l => ?_⟩
  rcases n1 l with h | ⟨ha, hb⟩ <;> rcases n2 l with g | ⟨gb, gc⟩
  · exact Or.inl (g.trans h)
  · exact Or.inr ⟨h ▸ gb, gc⟩
  · exact Or.inr ⟨ha, g.trans hb⟩
  · exact absurd (hb.symm.trans gb) (by simp)

theorem NodesFrame.refl_nodes (m : NodeMap) : NodesFrame m m := by
  induction m with
  | nil => exact List.Forall₂.nil
  | cons p rest ih => exact List.Forall₂.cons ⟨rfl, NodeFrame.refl_node p.2⟩ ih

theorem NodesFrame.comp_nodes {a b c : NodeMap} (h1 : NodesFrame a b)
    (h2 : NodesFrame b c) : NodesFrame a c := by
  induction h1 generalizing c with
  | nil => cases h2; exact List.Forall₂.nil
  | cons hpq h1' ih =>
    cases h2 with
    | cons hqr h2' =>
      exact List.Forall₂.cons
        ⟨hqr.1.trans hpq.1, hpq.2.comp_node hqr.2⟩ (ih h2')

theorem StateFrame.refl_state (s : HNSW) : StateFrame s s :=
  ⟨rfl, rfl, rfl, rfl, rfl, rfl, rfl, NodesFrame.refl_nodes s.nodes⟩

theorem StateFrame.comp_state {a b c : HNSW} (h1 : StateFrame a b)
    (h2 : StateFrame b c) : StateFrame a c := by
  obtain ⟨m1, d1, M1, e1, l1, p1, q1, n1⟩ := h1
  obtain ⟨m2, d2, M2, e2, l2, p2, q2, n2⟩ := h2
  exact ⟨m2.trans m1, d2.trans d1, M2.trans M1, e2.trans e1, l2.trans l1,
    p2.trans p1, q2.trans q1, n1.comp_nodes n2⟩

theorem NodesFrame.get_some {m m' : NodeMap} (h : NodesFrame m m')
    {id : String} {n : AstroNode} (hg : mapGet m id = some n) :
    ∃ n', mapGet m' id = some n' ∧ NodeFrame n n' := by
  induction h with
  | nil => simp [mapGet] at hg
  | cons hpq h' ih =>
    rename_i p q l1 l2
    by_cases hk : p.1 = id
    · refine ⟨q.2, ?_, ?_⟩
      · simp [mapGet, hpq.1, hk]
      · simp only [mapGet, if_pos hk] at hg
        cases hg
        exact hpq.2
    · simp only [mapGet, if_neg hk] at hg
      obtain ⟨n', hn', hf⟩ := ih hg
      exact ⟨n', by simp [mapGet, hpq.1, hk, hn'], hf⟩

theorem NodesFrame.get_none {m m' : NodeMap} (h : NodesFrame m m')
    {id : String} (hg : mapGet m id = none) : mapGet m' id = none := by
  induction h with
  | nil => simp [mapGet]
  | cons hpq h' ih =>
    rename_i p q l1 l2
    by_cases hk : p.1 = id
    · simp [mapGet, hk] at hg
    · simp only [mapGet, if_neg hk] at hg
      simp [mapGet, hpq.1, hk, ih hg]

theorem NodesFrame.map_fst {m m' : NodeMap} (h : NodesFrame m m') :
    m'.map Prod.fst = m.map Prod.fst := by
  induction h with
  | nil => rfl
  | cons hpq h' ih => simp [hpq.1, ih]

/-- `nbAt` is invariant under the frame: a hole that became an empty list
reads as the empty list either way. -/
theorem StateFrame.nbAt_eq {s s' : HNSW} (h : StateFrame s s')
    (id : String) (l : Nat) : nbAt s' id l = nbAt s id l := by
  cases hg : mapGet s.nodes id with
  | none => simp [nbAt, hg, h.2.2.2.2.2.2.2.get_none hg]
  | some n =>
    obtain ⟨n', hn', hf⟩ := h.2.2.2.2.2.2.2.get_some hg
    rcases hf.2.2.2.2 l with he | ⟨ha, hb⟩
    · simp [nbAt, hg, hn', he]
    · simp [nbAt, hg, hn', ha, hb]

/-- The map-level core of the lazy initialisation frame step. -/
theorem nodesFrame_update_lazy (cid : String) (level : Nat) :
    ∀ (m : NodeMap) (cnode : AstroNode), mapGet m cid = some cnode →
      jsGet cnode.neighbors level = none →
      NodesFrame m (mapUpdate m cid
        (fun n => { n with neighbors := jsSet n.neighbors level [] })) := by
  intro m
  induction m with
  | nil => intro cnode hg _; simp [mapGet] at hg
  | cons p rest ih =>
    intro cnode hg hnone
    by_cases hk : p.1 = cid
    · simp only [mapGet, if_pos hk] at hg
      cases hg
      have hget : mapGet (p :: rest) cid = some p.2 := by simp [mapGet, hk]
      simp only [mapUpdate, hget, mapSet, if_pos hk]
      refine List.Forall₂.cons ⟨hk.symm, rfl, rfl, rfl, rfl, fun l => ?_⟩
        (NodesFrame.refl_nodes rest)
      by_cases hl : l = level
      · subst hl
        exact Or.inr ⟨hnone, jsGet_jsSet_self _ _ _⟩
      · exact Or.inl (jsGet_jsSet_ne _ _ _ _ hl)
    · simp only [mapGet, if_neg hk] at hg
      have hget : mapGet (p :: rest) cid = some cnode := by
        simp [mapGet, hk, hg]
      simp only [mapUpdate, hget, mapSet, if_neg hk]
      have := ih cnode hg hnone
      simp only [mapUpdate, hg] at this
      exact List.Forall₂.cons ⟨rfl, NodeFrame.refl_node p.2⟩ this

/-- The lazy initialisation inside the search loop is a frame step. -/
theorem stateFrame_lazy_setNb {s : HNSW} {cid : String} {cnode : AstroNode}
    (hg : mapGet s.nodes cid = some cnode) (level : Nat)
    (hnone : jsGet cnode.neighbors level = none) :
    StateFrame s (setNb s cid level []) :=
  ⟨rfl, rfl, rfl, rfl, rfl, rfl, rfl,
    nodesFrame_update_lazy cid level s.nodes cnode hg hnone⟩

/-- The search loop only performs lazy initialisations: its final state,
whatever the outcome, is frame-related to the input state. -/
theorem slLoop_frame (sim : SimFun) (query : List ℚ) (ef level : Nat) :
    ∀ (fuel : Nat) (s : HNSW) (visited : List String)
      (cand found : List (ℚ × String)),
      StateFrame s (slLoop sim query ef level fuel s visited cand found).state := by
  intro fuel
  induction fuel with
  | zero => intro s _ _ _; exact StateFrame.refl_state s
  | succ fuel ih =>
    intro s visited cand found
    cases cand with
    | nil => exact StateFrame.refl_state s
    | cons c crest =>
      obtain ⟨ck, cid⟩ := c
      simp only [slLoop]
      cases hL : found.getLast? with
      | none => exact StateFrame.refl_state s
      | some f =>
        simp only
        by_cases hlt : ck < f.1
        · simp only [if_pos hlt]
          exact StateFrame.refl_state s
        · simp only [if_neg hlt]
          cases hg : mapGet s.nodes cid with
          | none => exact StateFrame.refl_state s
          | some cnode =>
            simp only
            have hstep : StateFrame s
                (if jsGet cnode.neighbors level = none
                 then setNb s cid level [] else s) := by
              by_cases hnone : jsGet cnode.neighbors level = none
              · simpa [hnone] using stateFrame_lazy_setNb hg level hnone
              · simpa [hnone] using StateFrame.refl_state s
            cases hnb : slNbrs sim
                (if jsGet cnode.neighbors level = none
                 then setNb s cid level [] else s)
                query ef ((jsGet cnode.neighbors level).getD [])
                visited crest found with
            | none => simpa [hnb] using hstep
            | some t =>
              obtain ⟨v2, c2, f2⟩ := t
              simpa [hnb] using hstep.comp_state (ih _ v2 c2 f2)

/-- searchLayer is a frame step for every outcome. -/
theorem searchLayer_frame (sim : SimFun) (s : HNSW) (query : List ℚ)
    (eps : List String) (ef level fuel : Nat) :
    StateFrame s (searchLayer sim s query eps ef level fuel).state := by
  unfold searchLayer
  cases hs : slSeed sim s query eps [] [] [] with
  | none => exact StateFrame.refl_state s
  | some t =>
    obtain ⟨v, c, f⟩ := t
    exact slLoop_frame sim query ef level fuel s v c f

/-- The per-level loop of searchKNNOptimized is a frame step for every
outcome. -/
theorem sknnLevels_frame (sim : SimFun) (query : List ℚ)
    (K ef beamSize fuel : Nat) :
    ∀ (lvls : List Nat) (s : HNSW) (beam : List String)
      (best : List (ℚ × String)),
      StateFrame s (sknnLevels sim query K ef beamSize fuel lvls s beam best).state := by
  intro lvls
  induction lvls with
  | nil => intro s _ _; exact StateFrame.refl_state s
  | cons lvl rest ih =>
    intro s beam best
    simp only [sknnLevels]
    cases hsl : searchLayer sim s query beam (min ef beamSize) lvl fuel with
    | err s1 m =>
      simpa [hsl, Res.state] using searchLayer_frame sim s query beam
        (min ef beamSize) lvl fuel
    | fuelOut s1 =>
      simpa [hsl, Res.state] using searchLayer_frame sim s query beam
        (min ef beamSize) lvl fuel
    | ok s1 out =>
      have h1 : StateFrame s s1 := by
        simpa [hsl, Res.state] using searchLayer_frame sim s query beam
          (min ef beamSize) lvl fuel
      dsimp only
      cases hub : updateBestCandidates sim s1 query best out (max K ef) with
      | none => exact h1
      | some best2 =>
        dsimp only
        exact h1.comp_state (ih s1 _ best2)

/-- searchKNNOptimized is a frame step for every outcome: it changes the
state only by materialising empty adjacency lists at formerly absent
levels of visited nodes. -/
theorem searchKNN_state_frame (sim : SimFun) (s : HNSW) (query : List ℚ)
    (K : Nat) (tau : ℚ) (ef beamSize fuel : Nat) :
    StateFrame s
      (searchKNNOptimized sim s query K tau ef beamSize fuel).state := by
  unfold searchKNNOptimized
  by_cases hep : s.entryPointId = ""
  · simp only [if_pos hep]
    exact StateFrame.refl_state s
  · simp only [if_neg hep]
    cases hlv : sknnLevels sim query K ef beamSize fuel (downTo s.levelMax 0) s
        [s.entryPointId] [] with
    | err s1 m =>
      simpa [hlv, Res.state] using sknnLevels_frame sim query K ef beamSize fuel
        (downTo s.levelMax 0) s [s.entryPointId] []
    | fuelOut s1 =>
      simpa [hlv, Res.state] using sknnLevels_frame sim query K ef beamSize fuel
        (downTo s.levelMax 0) s [s.entryPointId] []
    | ok s1 bb =>
      obtain ⟨beam, best⟩ := bb
      have h1 : StateFrame s s1 := by
        simpa [hlv, Res.state] using sknnLevels_frame sim query K ef beamSize
          fuel (downTo s.levelMax 0) s [s.entryPointId] []
      dsimp only
      cases hbl : searchLayer sim s1 query beam ef 0 fuel with
      | err s2 m =>
        simpa [hbl, Res.state] using
          h1.comp_state (by simpa [hbl, Res.state] using
            searchLayer_frame sim s1 query beam ef 0 fuel)
      | fuelOut s2 =>
        simpa [hbl, Res.state] using
          h1.comp_state (by simpa [hbl, Res.state] using
            searchLayer_frame sim s1 query beam ef 0 fuel)
      | ok s2 bottom =>
        have h2 : StateFrame s s2 :=
          h1.comp_state (by simpa [hbl, Res.state] using
            searchLayer_frame sim s1 query beam ef 0 fuel)
        dsimp only
        cases hub : updateBestCandidates sim s2 query best bottom (max K ef) with
        | none => exact h2
        | some best2 =>
          dsimp only
          cases hsc : scoreAll sim s2 query best2 with
          | none => exact h2
          | some scored => exact h2

/-! Claim C9. -/

/-- A one-point index reached from the constructor (M = 16): the node
"a" is inserted first, so its adjacency array is completely empty. -/
def c9Base : HNSW :=
  (addPoint euclidSim1 (hnswNew 16 200 none Metric.euclidean probsM16)
    "a" [0] 0 50).state

/-- Counterexample for C9: searchKNNOptimized is not read-only as claimed.
On a reachable one-node index the search completes normally but the
state after the call differs from the state before it: searchLayer
materialises an empty adjacency list at every absent level of the
visited node ("a" goes from no stored levels to eight stored empty
levels). -/
theorem claim9_counterexample :
    (searchKNNOptimized euclidSim1 c9Base [0] 1 (1/2) 200 10 50).isOk = true
    ∧ (searchKNNOptimized euclidSim1 c9Base [0] 1 (1/2) 200 10 50).state ≠ c9Base
    ∧ (mapGet c9Base.nodes "a").map (fun n => n.neighbors.length) = some 0
    ∧ (mapGet (searchKNNOptimized euclidSim1 c9Base [0] 1 (1/2) 200 10 50).state.nodes
        "a").map (fun n => n.neighbors.length) = some 8 := by
  with_unfolding_all decide

/-- Claim C9 as amended: a completed searchKNNOptimized changes the state
only by materialising empty adjacency lists at formerly absent levels of
visited nodes; every node's identity, vector, level, tombstone flag and
every present adjacency list, as well as the key sequence, entryPointId,
levelMax, d, M, efConstruction, the metric and the probability table, are
unchanged (the frame relation `StateFrame`). -/
theorem claim9_amended (sim : SimFun) (s : HNSW) (query : List ℚ) (K : Nat)
    (tau : ℚ) (ef beamSize fuel : Nat) (s2 : HNSW) (res : List ScoredNode)
    (h : searchKNNOptimized sim s query K tau ef beamSize fuel = Res.ok s2 res) :
    StateFrame s s2 := by
  have hf := searchKNN_state_frame sim s query K tau ef beamSize fuel
  rw [h] at hf
  simpa [Res.state] using hf

/-- Witness for the amended C9: on the concrete one-node run the theorem
applies and yields, for instance, that levelMax is unchanged. -/
theorem claim9_witness :
    (searchKNNOptimized euclidSim1 c9Base [0] 1 (1/2) 200 10 50).state.levelMax
      = c9Base.levelMax := by
  cases hok : searchKNNOptimized euclidSim1 c9Base [0] 1 (1/2) 200 10 50 with
  | ok s2 res =>
    exact (claim9_amended euclidSim1 c9Base [0] 1 (1/2) 200 10 50 s2 res
      hok).2.2.2.2.1
  | err s2 m =>
    have hk : (searchKNNOptimized euclidSim1 c9Base [0] 1 (1/2) 200 10 50).isOk
        = true := by with_unfolding_all decide
    rw [hok] at hk
    simp [Res.isOk] at hk
  | fuelOut s2 =>
    have hk : (searchKNNOptimized euclidSim1 c9Base [0] 1 (1/2) 200 10 50).isOk
        = true := by with_unfolding_all decide
    rw [hok] at hk
    simp [Res.isOk] at hk

/-! Claim C3: postconditions of searchKNNOptimized. -/

/-- The invariant of the best-candidate queue: sorted by key descending,
and every stored key is the similarity of the query to the vector of the
node the entry's id resolves to. -/
def BestInv (sim : SimFun) (query : List ℚ) (s : HNSW)
    (best : List (ℚ × String)) : Prop :=
  best.Pairwise (fun a b => b.1 ≤ a.1) ∧
  ∀ c ∈ best, ∃ n, mapGet s.nodes c.2 = some n ∧ c.1 = sim query n.vector

theorem bestInv_nil (sim : SimFun) (query : List ℚ) (s : HNSW) :
    BestInv sim query s [] :=
  ⟨List.Pairwise.nil, by simp⟩

theorem bestInv_frame {sim : SimFun} {query : List ℚ} {s s' : HNSW}
    {best : List (ℚ × String)} (h : StateFrame s s')
    (hb : BestInv sim query s best) : BestInv sim query s' best := by
  refine ⟨hb.1, fun c hc => ?_⟩
  obtain ⟨n, hg, hk⟩ := hb.2 c hc
  obtain ⟨n', hg', hf⟩ := h.2.2.2.2.2.2.2.get_some hg
  exact ⟨n', hg', by rw [hk, hf.2.1]⟩

theorem bestInv_ubcPush {sim : SimFun} {query : List ℚ} {s : HNSW} :
    ∀ (newC best : List (ℚ × String)), BestInv sim query s best →
      ∀ best2, ubcPush sim s query best newC = some best2 →
        BestInv sim query s best2 := by
  intro newC
  induction newC with
  | nil =>
    intro best hb best2 h
    simp only [ubcPush] at h
    cases h
    exact hb
  | cons c rest ih =>
    intro best hb best2 h
    simp only [ubcPush] at h
    cases hg : mapGet s.nodes c.2 with
    | none => rw [hg] at h; cases h
    | some n =>
      rw [hg] at h
      dsimp only at h
      by_cases hdel : n.deleted
      · rw [if_pos hdel] at h
        exact ih best hb best2 h
      · rw [if_neg hdel] at h
        refine ih _ ⟨pairwise_pqPush _ _ _ hb.1, fun x hx => ?_⟩ best2 h
        rcases (mem_pqPush best (sim query n.vector) c.2 x).mp hx with rfl | hxb
        · exact ⟨n, hg, rfl⟩
        · exact hb.2 x hxb

theorem bestInv_take {sim : SimFun} {query : List ℚ} {s : HNSW}
    {best : List (ℚ × String)} (hb : BestInv sim query s best) (m : Nat) :
    BestInv sim query s (best.take m) :=
  ⟨hb.1.sublist (List.take_sublist m best),
   fun c hc => hb.2 c ((List.take_sublist m best).subset hc)⟩

theorem bestInv_updateBest {sim : SimFun} {query : List ℚ} {s : HNSW}
    {best newC : List (ℚ × String)} {m : Nat} {best2 : List (ℚ × String)}
    (hb : BestInv sim query s best)
    (h : updateBestCandidates sim s query best newC m = some best2) :
    BestInv sim query s best2 := by
  unfold updateBestCandidates at h
  cases hp : ubcPush sim s query best newC with
  | none => rw [hp] at h; cases h
  | some b =>
    rw [hp] at h
    simp only [Option.map_some'] at h
    cases h
    exact bestInv_take (bestInv_ubcPush newC best hb b hp) m

theorem sknnLevels_bestInv (sim : SimFun) (query : List ℚ)
    (K ef beamSize fuel : Nat) :
    ∀ (lvls : List Nat) (s : HNSW) (beam : List String)
      (best : List (ℚ × String)), BestInv sim query s best →
      ∀ (s1 : HNSW) (bb : List String × List (ℚ × String)),
        sknnLevels sim query K ef beamSize fuel lvls s beam best = .ok s1 bb →
        BestInv sim query s1 bb.2 := by
  intro lvls
  induction lvls with
  | nil =>
    intro s beam best hb s1 bb h
    simp only [sknnLevels] at h
    cases h
    exact hb
  | cons lvl rest ih =>
    intro s beam best hb s1 bb h
    simp only [sknnLevels] at h
    cases hsl : searchLayer sim s query beam (min ef beamSize) lvl fuel with
    | err sL m => rw [hsl] at h; cases h
    | fuelOut sL => rw [hsl] at h; cases h
    | ok sL out =>
      rw [hsl] at h
      dsimp only at h
      have hfr : StateFrame s sL := by
        simpa [hsl, Res.state] using searchLayer_frame sim s query beam
          (min ef beamSize) lvl fuel
      cases hub : updateBestCandidates sim sL query best out (max K ef) with
      | none => rw [hub] at h; cases h
      | some bestJ =>
        rw [hub] at h
        dsimp only at h
        exact ih sL _ bestJ (bestInv_updateBest (bestInv_frame hfr hb) hub)
          s1 bb h

theorem scoreAll_mem {sim : SimFun} {s : HNSW} {query : List ℚ} :
    ∀ {l : List (ℚ × String)} {scored : List ScoredNode},
      scoreAll sim s query l = some scored →
      ∀ e ∈ scored, e.score = sim query e.node.vector := by
  intro l
  induction l with
  | nil =>
    intro scored h e he
    simp only [scoreAll] at h
    cases h
    cases he
  | cons c rest ih =>
    intro scored h e he
    simp only [scoreAll] at h
    cases hg : mapGet s.nodes c.2 with
    | none => rw [hg] at h; cases h
    | some n =>
      rw [hg] at h
      dsimp only at h
      cases hr : scoreAll sim s query rest with
      | none => rw [hr] at h; cases h
      | some scr =>
        rw [hr] at h
        simp only [Option.map_some'] at h
        cases h
        rcases List.mem_cons.mp he with rfl | hmem
        · rfl
        · exact ih hr e hmem

theorem scoreAll_scores {sim : SimFun} {s : HNSW} {query : List ℚ} :
    ∀ {l : List (ℚ × String)} {scored : List ScoredNode},
      scoreAll sim s query l = some scored →
      (∀ c ∈ l, ∃ n, mapGet s.nodes c.2 = some n ∧ c.1 = sim query n.vector) →
      scored.map (fun e => e.score) = l.map Prod.fst := by
  intro l
  induction l with
  | nil =>
    intro scored h _
    simp only [scoreAll] at h
    cases h
    rfl
  | cons c rest ih =>
    intro scored h hkeys
    simp only [scoreAll] at h
    cases hg : mapGet s.nodes c.2 with
    | none => rw [hg] at h; cases h
    | some n =>
      rw [hg] at h
      dsimp only at h
      cases hr : scoreAll sim s query rest with
      | none => rw [hr] at h; cases h
      | some scr =>
        rw [hr] at h
        simp only [Option.map_some'] at h
        cases h
        have hc := hkeys c (by simp)
        obtain ⟨n', hg', hk'⟩ := hc
        rw [hg] at hg'
        cases hg'
        simp only [List.map_cons]
        refine congrArg₂ _ hk'.symm (ih hr (fun x hx => hkeys x (by simp [hx])))

/-- Claim C3: on every completed run, searchKNNOptimized returns at most
K entries, each carrying score equal to the similarity of the query to
its vector, each score strictly greater than the threshold, none of them
tombstoned, and the sequence ordered by score descending. -/
theorem claim3_searchKNN_postconditions (sim : SimFun) (s : HNSW)
    (query : List ℚ) (K : Nat) (tau : ℚ) (ef beamSize fuel : Nat)
    (hK : 1 ≤ K) (s2 : HNSW) (res : List ScoredNode)
    (h : searchKNNOptimized sim s query K tau ef beamSize fuel = Res.ok s2 res) :
    res.length ≤ K ∧
    (∀ e ∈ res, e.score = sim query e.node.vector ∧ tau < e.score ∧
      e.node.deleted = false) ∧
    res.Pairwise (fun a b => b.score ≤ a.score) := by
  clear hK
  unfold searchKNNOptimized at h
  by_cases hep : s.entryPointId = ""
  · rw [if_pos hep] at h
    cases h
    exact ⟨by simp, by simp, List.Pairwise.nil⟩
  · rw [if_neg hep] at h
    cases hlv : sknnLevels sim query K ef beamSize fuel (downTo s.levelMax 0) s
        [s.entryPointId] [] with
    | err s1 m => rw [hlv] at h; cases h
    | fuelOut s1 => rw [hlv] at h; cases h
    | ok s1 bb =>
      obtain ⟨beam, best⟩ := bb
      rw [hlv] at h
      dsimp only at h
      have hb1 : BestInv sim query s1 best :=
        sknnLevels_bestInv sim query K ef beamSize fuel (downTo s.levelMax 0) s
          [s.entryPointId] [] (bestInv_nil sim query s) s1 (beam, best) hlv
      cases hbl : searchLayer sim s1 query beam ef 0 fuel with
      | err sE m => rw [hbl] at h; cases h
      | fuelOut sE => rw [hbl] at h; cases h
      | ok sB bottom =>
        rw [hbl] at h
        dsimp only at h
        have hfr : StateFrame s1 sB := by
          simpa [hbl, Res.state] using searchLayer_frame sim s1 query beam ef 0
            fuel
        cases hub : updateBestCandidates sim sB query best bottom (max K ef) with
        | none => rw [hub] at h; cases h
        | some best2 =>
          rw [hub] at h
          dsimp only at h
          have hb2 : BestInv sim query sB best2 :=
            bestInv_updateBest (bestInv_frame hfr hb1) hub
          cases hsc : scoreAll sim sB query best2 with
          | none => rw [hsc] at h; cases h
          | some scored =>
            rw [hsc] at h
            dsimp only at h
            have hres : res = (if (scored.filter (fun e =>
                decide (tau < e.score) && !e.node.deleted)).length > K
              then (scored.filter (fun e =>
                decide (tau < e.score) && !e.node.deleted)).take K
              else scored.filter (fun e =>
                decide (tau < e.score) && !e.node.deleted)) := by
              cases h; rfl
            have hps : scored.Pairwise (fun a b => b.score ≤ a.score) := by
              have hmap := scoreAll_scores hsc hb2.2
              have h1 : (scored.map (fun e => e.score)).Pairwise
                  (fun a b => b ≤ a) := by
                rw [hmap]
                exact (List.pairwise_map).mpr hb2.1
              exact (List.pairwise_map).mp h1
            have hmemS := scoreAll_mem hsc
            have hfp : (scored.filter (fun e =>
                decide (tau < e.score) && !e.node.deleted)).Pairwise
                (fun a b => b.score ≤ a.score) := hps.filter _
            have hsubF : ∀ e ∈ scored.filter (fun e =>
                decide (tau < e.score) && !e.node.deleted),
                e.score = sim query e.node.vector ∧ tau < e.score ∧
                  e.node.deleted = false := by
              intro e he
              have hm := List.mem_filter.mp he
              have hcond := hm.2
              simp only [Bool.and_eq_true, decide_eq_true_eq,
                Bool.not_eq_eq_eq_not, Bool.not_true] at hcond
              exact ⟨hmemS e hm.1, hcond.1, by simpa using hcond.2⟩
            refine ⟨?_, ?_, ?_⟩
            · rw [hres]
              by_cases hlen : (scored.filter (fun e =>
                  decide (tau < e.score) && !e.node.deleted)).length > K
              · rw [if_pos hlen]
                exact List.length_take_le _ _
              · rw [if_neg hlen]
                omega
            · intro e he
              rw [hres] at he
              have heF : e ∈ scored.filter (fun e =>
                  decide (tau < e.score) && !e.node.deleted) := by
                by_cases hlen : (scored.filter (fun e =>
                    decide (tau < e.score) && !e.node.deleted)).length > K
                · rw [if_pos hlen] at he
                  exact (List.take_sublist _ _).subset he
                · rw [if_neg hlen] at he
                  exact he
              exact hsubF e heF
            · rw [hres]
              by_cases hlen : (scored.filter (fun e =>
                  decide (tau < e.score) && !e.node.deleted)).length > K
              · rw [if_pos hlen]
                exact hfp.sublist (List.take_sublist _ _)
              · rw [if_neg hlen]
                exact hfp

/-- The result list of a search outcome (empty unless completed). -/
def resValue : Res (List ScoredNode) → List ScoredNode
  | .ok _ r => r
  | _ => []

/-- A two-point index reached from the constructor (M = 16). -/
def c3Base : HNSW :=
  (addPoint euclidSim1
    (addPoint euclidSim1 (hnswNew 16 200 none Metric.euclidean probsM16)
      "a" [0] 0 50).state
    "b" [1] 0 50).state

/-- Witness for C3: the concrete two-node search completes and the
theorem bounds its result length by K = 1. -/
theorem claim3_witness :
    (resValue (searchKNNOptimized euclidSim1 c3Base [0] 1 (1/2) 200 10 60)).length
      ≤ 1 := by
  cases hok : searchKNNOptimized euclidSim1 c3Base [0] 1 (1/2) 200 10 60 with
  | ok s2 res =>
    exact (claim3_searchKNN_postconditions euclidSim1 c3Base [0] 1 (1/2) 200 10
      60 (by decide) s2 res hok).1
  | err s2 m =>
    have hk : (searchKNNOptimized euclidSim1 c3Base [0] 1 (1/2) 200 10 60).isOk
        = true := by with_unfolding_all decide
    rw [hok] at hk
    simp [Res.isOk] at hk
  | fuelOut s2 =>
    have hk : (searchKNNOptimized euclidSim1 c3Base [0] 1 (1/2) 200 10 60).isOk
        = true := by with_unfolding_all decide
    rw [hok] at hk
    simp [Res.isOk] at hk

/-! Claim C2. -/

theorem isSome_mapUpdate (m : NodeMap) (k : String) (f : AstroNode → AstroNode)
    (q : String) :
    (mapGet (mapUpdate m k f) q).isSome = (mapGet m q).isSome := by
  by_cases h : q = k
  · subst h
    rw [mapGet_mapUpdate_self]
    cases mapGet m q <;> simp
  · rw [mapGet_mapUpdate_ne _ _ _ _ h]

theorem isSome_setNb (s : HNSW) (id : String) (l : Nat) (nb : List String)
    (q : String) :
    (mapGet (setNb s id l nb).nodes q).isSome = (mapGet s.nodes q).isSome :=
  isSome_mapUpdate s.nodes id _ q

theorem isSome_lazyInitNb (s : HNSW) (id : String) (l : Nat) (q : String) :
    (mapGet (lazyInitNb s id l).nodes q).isSome = (mapGet s.nodes q).isSome := by
  unfold lazyInitNb
  cases hg : mapGet s.nodes id with
  | none => rfl
  | some n =>
    dsimp only
    by_cases hn : jsGet n.neighbors l = none
    · rw [if_pos hn]
      exact isSome_setNb s id l [] q
    · rw [if_neg hn]

theorem nbAt_setNb_self (s : HNSW) (id : String) (l : Nat) (nb : List String)
    (h : (mapGet s.nodes id).isSome = true) :
    nbAt (setNb s id l nb) id l = nb := by
  obtain ⟨n, hn⟩ := Option.isSome_iff_exists.mp h
  unfold nbAt setNb
  simp only [mapGet_mapUpdate_self, hn, Option.map_some']
  simp [jsGet_jsSet_self]

theorem nbAt_setNb_diff (s : HNSW) (id : String) (l : Nat) (nb : List String)
    (q : String) (hq : q ≠ id) (m : Nat) :
    nbAt (setNb s id l nb) q m = nbAt s q m := by
  unfold nbAt setNb
  simp only [mapGet_mapUpdate_ne _ _ _ _ hq]

theorem nbAt_lazyInitNb_self (s : HNSW) (id : String) (l : Nat)
    (h : (mapGet s.nodes id).isSome = true) :
    nbAt (lazyInitNb s id l) id l = nbAt s id l := by
  obtain ⟨n, hn⟩ := Option.isSome_iff_exists.mp h
  unfold lazyInitNb
  rw [hn]
  dsimp only
  by_cases hno : jsGet n.neighbors l = none
  · rw [if_pos hno, nbAt_setNb_self s id l [] h]
    simp [nbAt, hn, hno]
  · rw [if_neg hno]

theorem nbAt_lazyInitNb_diff (s : HNSW) (id : String) (l : Nat) (q : String)
    (hq : q ≠ id) (m : Nat) :
    nbAt (lazyInitNb s id l) q m = nbAt s q m := by
  unfold lazyInitNb
  cases hg : mapGet s.nodes id with
  | none => rfl
  | some n =>
    dsimp only
    by_cases hno : jsGet n.neighbors l = none
    · rw [if_pos hno]
      exact nbAt_setNb_diff s id l [] q hq m
    · rw [if_neg hno]

/-- Claim C2 as amended: the moment addBidirectionalConnections finishes,
both directions of the new edge are present — each node's adjacency at
that level contains the other id.  (Symmetric adjacency is not an
invariant of the index, because shrinkConnectionsIfNeeded afterwards
drops edges from the shrunk node's list only; see the counterexample.) -/
theorem claim2_amended (s : HNSW) (idA idB : String) (level : Nat)
    (hA : (mapGet s.nodes idA).isSome = true)
    (hB : (mapGet s.nodes idB).isSome = true) :
    idB ∈ nbAt (addBidirectionalConnections s idA idB level) idA level ∧
    idA ∈ nbAt (addBidirectionalConnections s idA idB level) idB level := by
  unfold addBidirectionalConnections
  simp only
  set s1 := lazyInitNb s idA level with hs1
  set s2 := lazyInitNb s1 idB level with hs2
  set s3 := setNb s2 idA level ((nbAt s2 idA level).filter (fun u => u ≠ ""))
    with hs3
  set s4 := setNb s3 idB level ((nbAt s3 idB level).filter (fun u => u ≠ ""))
    with hs4
  have hA2 : (mapGet s2.nodes idA).isSome = true := by
    rw [hs2, isSome_lazyInitNb, hs1, isSome_lazyInitNb]; exact hA
  have hB2 : (mapGet s2.nodes idB).isSome = true := by
    rw [hs2, isSome_lazyInitNb, hs1, isSome_lazyInitNb]; exact hB
  have hA3 : (mapGet s3.nodes idA).isSome = true := by
    rw [hs3, isSome_setNb]; exact hA2
  have hB3 : (mapGet s3.nodes idB).isSome = true := by
    rw [hs3, isSome_setNb]; exact hB2
  have hA4 : (mapGet s4.nodes idA).isSome = true := by
    rw [hs4, isSome_setNb]; exact hA3
  have hB4 : (mapGet s4.nodes idB).isSome = true := by
    rw [hs4, isSome_setNb]; exact hB3
  set la := nbAt s4 idA level with hla
  by_cases hmem : idB ∈ la
  · simp only [if_pos hmem]
    set lb := nbAt s4 idB level with hlb
    by_cases hmem2 : idA ∈ lb
    · simp only [if_pos hmem2]
      exact ⟨hmem, hmem2⟩
    · simp only [if_neg hmem2]
      constructor
      · by_cases hAB : idA = idB
        · subst hAB
          rw [nbAt_setNb_self s4 idA level _ hA4]
          exact List.mem_append.mpr (Or.inl hmem)
        · rw [nbAt_setNb_diff s4 idB level _ idA hAB level]
          exact hmem
      · rw [nbAt_setNb_self s4 idB level _ hB4]
        exact List.mem_append.mpr (Or.inr (by simp))
  · simp only [if_neg hmem]
    set s5 := setNb s4 idA level (la ++ [idB]) with hs5
    have hA5 : (mapGet s5.nodes idA).isSome = true := by
      rw [hs5, isSome_setNb]; exact hA4
    have hB5 : (mapGet s5.nodes idB).isSome = true := by
      rw [hs5, isSome_setNb]; exact hB4
    have hinA5 : idB ∈ nbAt s5 idA level := by
      rw [hs5, nbAt_setNb_self s4 idA level _ hA4]
      exact List.mem_append.mpr (Or.inr (by simp))
    set lb := nbAt s5 idB level with hlb
    by_cases hmem2 : idA ∈ lb
    · simp only [if_pos hmem2]
      exact ⟨hinA5, hmem2⟩
    · simp only [if_neg hmem2]
      constructor
      · by_cases hAB : idA = idB
        · subst hAB
          rw [nbAt_setNb_self s5 idA level _ hA5]
          exact List.mem_append.mpr (Or.inl hinA5)
        · rw [nbAt_setNb_diff s5 idB level _ idA hAB level]
          exact hinA5
      · rw [nbAt_setNb_self s5 idB level _ hB5]
        exact List.mem_append.mpr (Or.inr (by simp))

/-- Witness for the amended C2: linking the two nodes of a concrete index
makes each list the other. -/
theorem claim2_witness :
    "b" ∈ nbAt (addBidirectionalConnections c3Base "a" "b" 0) "a" 0 ∧
    "a" ∈ nbAt (addBidirectionalConnections c3Base "a" "b" 0) "b" 0 :=
  claim2_amended c3Base "a" "b" 0 (by with_unfolding_all decide)
    (by with_unfolding_all decide)

/-! Claim C10: infrastructure.  Well-formedness (adjacency closure) and
the frame of the wiring phase. -/

/-- The id resolves to a stored node. -/
def domHas (s : HNSW) (id : String) : Prop :=
  (mapGet s.nodes id).isSome = true

instance (s : HNSW) (id : String) : Decidable (domHas s id) := by
  unfold domHas; infer_instance

/-- Adjacency closure, in decidable bounded form: every id in any stored
adjacency list is either the empty-string sentinel or resolves to a
stored node. -/
def Closed (s : HNSW) : Prop :=
  ∀ p ∈ s.nodes, ∀ l ∈ List.range p.2.neighbors.length,
    ∀ y ∈ (jsGet p.2.neighbors l).getD [],
      y = "" ∨ (mapGet s.nodes y).isSome = true

instance : DecidablePred Closed := fun s => by
  unfold Closed; infer_instance

/-- Adjacency closure, in the unbounded form used by the proofs. -/
def ClosedU (s : HNSW) : Prop :=
  ∀ q l y, y ∈ nbAt s q l → y = "" ∨ domHas s y

theorem mapGet_mem {m : NodeMap} {k : String} {n : AstroNode}
    (h : mapGet m k = some n) : (k, n) ∈ m := by
  induction m with
  | nil => simp [mapGet] at h
  | cons p rest ih =>
    by_cases hp : p.1 = k
    · simp only [mapGet, if_pos hp] at h
      cases h
      have : (k, p.2) = p := by
        rw [← hp]
      rw [this]
      exact List.mem_cons_self p rest
    · simp only [mapGet, if_neg hp] at h
      exact List.mem_cons_of_mem p (ih h)

theorem jsGet_some_lt {l : List (Option α)} {i : Nat} {v : α}
    (h : jsGet l i = some v) : i < l.length := by
  by_contra hge
  have : l[i]? = none := by
    rw [List.getElem?_eq_none]
    omega
  simp [jsGet, this] at h

theorem closed_closedU {s : HNSW} (h : Closed s) : ClosedU s := by
  intro q l y hy
  unfold nbAt at hy
  cases hg : mapGet s.nodes q with
  | none => rw [hg] at hy; simp at hy
  | some n =>
    rw [hg] at hy
    dsimp only at hy
    cases hj : jsGet n.neighbors l with
    | none => rw [hj] at hy; simp at hy
    | some lst =>
      have hlt : l < n.neighbors.length := jsGet_some_lt hj
      have := h (q, n) (mapGet_mem hg) l (List.mem_range.mpr hlt) y hy
      exact this

theorem mapGet_isSome_iff_mem (m : NodeMap) (k : String) :
    (mapGet m k).isSome = true ↔ k ∈ m.map Prod.fst := by
  induction m with
  | nil => simp [mapGet]
  | cons p rest ih =>
    by_cases hp : p.1 = k
    · simp [mapGet, hp]
    · simp only [mapGet, if_neg hp, List.map_cons, List.mem_cons]
      rw [ih]
      constructor
      · exact fun h => Or.inr h
      · rintro (h | h)
        · exact absurd h.symm hp
        · exact h

theorem map_fst_setNb (s : HNSW) (id : String) (l : Nat) (nb : List String) :
    (setNb s id l nb).nodes.map Prod.fst = s.nodes.map Prod.fst :=
  map_fst_mapUpdate s.nodes id _

theorem map_fst_lazyInitNb (s : HNSW) (id : String) (l : Nat) :
    (lazyInitNb s id l).nodes.map Prod.fst = s.nodes.map Prod.fst := by
  unfold lazyInitNb
  cases hg : mapGet s.nodes id with
  | none => rfl
  | some n =>
    dsimp only
    by_cases hn : jsGet n.neighbors l = none
    · rw [if_pos hn]
      exact map_fst_setNb s id l []
    · rw [if_neg hn]

theorem setNb_of_absent (s : HNSW) (id : String) (l : Nat) (nb : List String)
    (h : mapGet s.nodes id = none) : setNb s id l nb = s := by
  simp [setNb, mapUpdate, h]

theorem nbAt_setNb_same_id_diff_level (s : HNSW) (id : String) (l m : Nat)
    (nb : List String) (hm : m ≠ l) :
    nbAt (setNb s id l nb) id m = nbAt s id m := by
  unfold nbAt setNb
  cases hg : mapGet s.nodes id with
  | none => simp [mapUpdate, hg]
  | some n =>
    simp only [mapGet_mapUpdate_self, hg, Option.map_some']
    rw [jsGet_jsSet_ne _ _ _ _ hm]

theorem nbAt_setNb_cases (s : HNSW) (id : String) (l : Nat) (nb : List String)
    (q : String) (m : Nat) :
    nbAt (setNb s id l nb) q m = nb ∨ nbAt (setNb s id l nb) q m = nbAt s q m := by
  by_cases hq : q = id
  · subst hq
    cases hg : mapGet s.nodes q with
    | none => right; rw [setNb_of_absent s q l nb hg]
    | some n =>
      by_cases hm : m = l
      · subst hm
        left
        exact nbAt_setNb_self s q m nb (by simp [hg])
      · right
        exact nbAt_setNb_same_id_diff_level s q l m nb hm
  · right
    exact nbAt_setNb_diff s id l nb q hq m

theorem domHas_setNb (s : HNSW) (id : String) (l : Nat) (nb : List String)
    (q : String) : domHas (setNb s id l nb) q ↔ domHas s q := by
  unfold domHas
  rw [isSome_setNb]

theorem domHas_lazyInitNb (s : HNSW) (id : String) (l : Nat) (q : String) :
    domHas (lazyInitNb s id l) q ↔ domHas s q := by
  unfold domHas
  rw [isSome_lazyInitNb]

theorem closedU_setNb {s : HNSW} (h : ClosedU s) (id : String) (l : Nat)
    {nb : List String} (hnb : ∀ y ∈ nb, y = "" ∨ domHas s y) :
    ClosedU (setNb s id l nb) := by
  intro q m y hy
  rcases nbAt_setNb_cases s id l nb q m with hc | hc
  · rw [hc] at hy
    rcases hnb y hy with he | hd
    · exact Or.inl he
    · exact Or.inr ((domHas_setNb s id l nb y).mpr hd)
  · rw [hc] at hy
    rcases h q m y hy with he | hd
    · exact Or.inl he
    · exact Or.inr ((domHas_setNb s id l nb y).mpr hd)

theorem closedU_lazyInitNb {s : HNSW} (h : ClosedU s) (id : String) (l : Nat) :
    ClosedU (lazyInitNb s id l) := by
  unfold lazyInitNb
  cases hg : mapGet s.nodes id with
  | none => exact h
  | some n =>
    dsimp only
    by_cases hn : jsGet n.neighbors l = none
    · rw [if_pos hn]
      exact closedU_setNb h id l (by simp)
    · rw [if_neg hn]
      exact h

/-- The node's adjacency at this level is present (not a hole). -/
def NbSet (s : HNSW) (id : String) (l : Nat) : Prop :=
  ∃ n lst, mapGet s.nodes id = some n ∧ jsGet n.neighbors l = some lst

theorem nbSet_setNb_self (s : HNSW) (id : String) (l : Nat) (nb : List String)
    (h : domHas s id) : NbSet (setNb s id l nb) id l := by
  obtain ⟨n, hn⟩ := Option.isSome_iff_exists.mp h
  refine ⟨{ n with neighbors := jsSet n.neighbors l nb }, nb, ?_, ?_⟩
  · unfold setNb
    simp [mapGet_mapUpdate_self, hn]
  · exact jsGet_jsSet_self _ _ _

theorem nbSet_setNb_pres {s : HNSW} {q : String} {m : Nat}
    (h : NbSet s q m) (id : String) (l : Nat) (nb : List String) :
    NbSet (setNb s id l nb) q m := by
  obtain ⟨n, lst, hg, hj⟩ := h
  by_cases hq : q = id
  · subst hq
    refine ⟨{ n with neighbors := jsSet n.neighbors l nb }, ?_⟩
    by_cases hm : m = l
    · subst hm
      exact ⟨nb, by unfold setNb; simp [mapGet_mapUpdate_self, hg],
        jsGet_jsSet_self _ _ _⟩
    · refine ⟨lst, by unfold setNb; simp [mapGet_mapUpdate_self, hg], ?_⟩
      rw [jsGet_jsSet_ne _ _ _ _ hm]
      exact hj
  · refine ⟨n, lst, ?_, hj⟩
    unfold setNb
    rw [mapGet_mapUpdate_ne _ _ _ _ hq]
    exact hg

theorem nbSet_lazyInitNb_pres {s : HNSW} {q : String} {m : Nat}
    (h : NbSet s q m) (id : String) (l : Nat) :
    NbSet (lazyInitNb s id l) q m := by
  unfold lazyInitNb
  cases hg : mapGet s.nodes id with
  | none => exact h
  | some n =>
    dsimp only
    by_cases hn : jsGet n.neighbors l = none
    · rw [if_pos hn]
      exact nbSet_setNb_pres h id l []
    · rw [if_neg hn]
      exact h

/-- The frame of the wiring phase: every scalar field, the key sequence,
and every record's identity, vector, level and tombstone are preserved;
only adjacency may change. -/
def WFrame (s s' : HNSW) : Prop :=
  s'.metric = s.metric ∧ s'.d = s.d ∧ s'.M = s.M ∧
  s'.efConstruction = s.efConstruction ∧ s'.levelMax = s.levelMax ∧
  s'.entryPointId = s.entryPointId ∧ s'.probs = s.probs ∧
  s'.nodes.map Prod.fst = s.nodes.map Prod.fst ∧
  ∀ id n, mapGet s.nodes id = some n → ∃ n', mapGet s'.nodes id = some n' ∧
    n'.uniqueid = n.uniqueid ∧ n'.vector = n.vector ∧ n'.level = n.level ∧
    n'.deleted = n.deleted

theorem WFrame.refl_w (s : HNSW) : WFrame s s :=
  ⟨rfl, rfl, rfl, rfl, rfl, rfl, rfl, rfl,
   fun _ n hg => ⟨n, hg, rfl, rfl, rfl, rfl⟩⟩

theorem WFrame.comp_w {a b c : HNSW} (h1 : WFrame a b) (h2 : WFrame b c) :
    WFrame a c := by
  obtain ⟨m1, d1, M1, e1, l1, p1, q1, k1, g1⟩ := h1
  obtain ⟨m2, d2, M2, e2, l2, p2, q2, k2, g2⟩ := h2
  refine ⟨m2.trans m1, d2.trans d1, M2.trans M1, e2.trans e1, l2.trans l1,
    p2.trans p1, q2.trans q1, k2.trans k1, fun id n hg => ?_⟩
  obtain ⟨n', hg', u', v', l', dd'⟩ := g1 id n hg
  obtain ⟨n'', hg'', u'', v'', l'', dd''⟩ := g2 id n' hg'
  exact ⟨n'', hg'', u''.trans u', v''.trans v', l''.trans l', dd''.trans dd'⟩

theorem stateFrame_wframe {s s' : HNSW} (h : StateFrame s s') : WFrame s s' := by
  obtain ⟨m, d, M, e, l, p, q, nf⟩ := h
  refine ⟨m, d, M, e, l, p, q, nf.map_fst, fun id n hg => ?_⟩
  obtain ⟨n', hg', hf⟩ := nf.get_some hg
  exact ⟨n', hg', hf.1, hf.2.1, hf.2.2.1, hf.2.2.2.1⟩

theorem wframe_setNb (s : HNSW) (id : String) (l : Nat) (nb : List String) :
    WFrame s (setNb s id l nb) := by
  refine ⟨rfl, rfl, rfl, rfl, rfl, rfl, rfl, map_fst_setNb s id l nb,
    fun q n hg => ?_⟩
  by_cases hq : q = id
  · subst hq
    refine ⟨{ n with neighbors := jsSet n.neighbors l nb }, ?_, rfl, rfl, rfl, rfl⟩
    unfold setNb
    simp [mapGet_mapUpdate_self, hg]
  · refine ⟨n, ?_, rfl, rfl, rfl, rfl⟩
    unfold setNb
    rw [mapGet_mapUpdate_ne _ _ _ _ hq]
    exact hg

theorem wframe_lazyInitNb (s : HNSW) (id : String) (l : Nat) :
    WFrame s (lazyInitNb s id l) := by
  unfold lazyInitNb
  cases hg : mapGet s.nodes id with
  | none => exact WFrame.refl_w s
  | some n =>
    dsimp only
    by_cases hn : jsGet n.neighbors l = none
    · rw [if_pos hn]
      exact wframe_setNb s id l []
    · rw [if_neg hn]
      exact WFrame.refl_w s

theorem wframe_addBidirectionalConnections (s : HNSW) (idA idB : String)
    (level : Nat) :
    WFrame s (addBidirectionalConnections s idA idB level) := by
  unfold addBidirectionalConnections
  simp only
  set s1 := lazyInitNb s idA level with hs1
  set s2 := lazyInitNb s1 idB level with hs2
  set s3 := setNb s2 idA level ((nbAt s2 idA level).filter (fun u => u ≠ ""))
    with hs3
  set s4 := setNb s3 idB level ((nbAt s3 idB level).filter (fun u => u ≠ ""))
    with hs4
  have w4 : WFrame s s4 :=
    (((wframe_lazyInitNb s idA level).comp_w
      (wframe_lazyInitNb s1 idB level)).comp_w
      (wframe_setNb s2 idA level _)).comp_w (wframe_setNb s3 idB level _)
  by_cases hm : idB ∈ nbAt s4 idA level
  · rw [if_pos hm]
    by_cases hm2 : idA ∈ nbAt s4 idB level
    · rw [if_pos hm2]
      exact w4
    · rw [if_neg hm2]
      exact w4.comp_w (wframe_setNb s4 idB level _)
  · rw [if_neg hm]
    set s5 := setNb s4 idA level (nbAt s4 idA level ++ [idB]) with hs5
    have w5 : WFrame s s5 := w4.comp_w (wframe_setNb s4 idA level _)
    by_cases hm2 : idA ∈ nbAt s5 idB level
    · rw [if_pos hm2]
      exact w5
    · rw [if_neg hm2]
      exact w5.comp_w (wframe_setNb s5 idB level _)

theorem closedU_addBidirectionalConnections {s : HNSW} (h : ClosedU s)
    (idA idB : String) (level : Nat) (ha : domHas s idA) (hb : domHas s idB) :
    ClosedU (addBidirectionalConnections s idA idB level) := by
  unfold addBidirectionalConnections
  simp only
  set s1 := lazyInitNb s idA level with hs1
  set s2 := lazyInitNb s1 idB level with hs2
  have h2 : ClosedU s2 := closedU_lazyInitNb (closedU_lazyInitNb h idA level)
    idB level
  have hd2 : ∀ q, domHas s2 q ↔ domHas s q := fun q => by
    rw [hs2, domHas_lazyInitNb, hs1, domHas_lazyInitNb]
  set s3 := setNb s2 idA level ((nbAt s2 idA level).filter (fun u => u ≠ ""))
    with hs3
  have h3 : ClosedU s3 := by
    refine closedU_setNb h2 idA level (fun y hy => ?_)
    exact h2 idA level y (List.mem_of_mem_filter hy)
  have hd3 : ∀ q, domHas s3 q ↔ domHas s q := fun q => by
    rw [hs3, domHas_setNb]; exact hd2 q
  set s4 := setNb s3 idB level ((nbAt s3 idB level).filter (fun u => u ≠ ""))
    with hs4
  have h4 : ClosedU s4 := by
    refine closedU_setNb h3 idB level (fun y hy => ?_)
    exact h3 idB level y (List.mem_of_mem_filter hy)
  have hd4 : ∀ q, domHas s4 q ↔ domHas s q := fun q => by
    rw [hs4, domHas_setNb]; exact hd3 q
  by_cases hm : idB ∈ nbAt s4 idA level
  · rw [if_pos hm]
    by_cases hm2 : idA ∈ nbAt s4 idB level
    · rw [if_pos hm2]
      exact h4
    · rw [if_neg hm2]
      refine closedU_setNb h4 idB level (fun y hy => ?_)
      rcases List.mem_append.mp hy with hy2 | hy2
      · exact h4 idB level y hy2
      · have : y = idA := by simpa using hy2
        subst this
        exact Or.inr ((hd4 y).mpr ha)
  · rw [if_neg hm]
    set s5 := setNb s4 idA level (nbAt s4 idA level ++ [idB]) with hs5
    have h5 : ClosedU s5 := by
      refine closedU_setNb h4 idA level (fun y hy => ?_)
      rcases List.mem_append.mp hy with hy2 | hy2
      · exact h4 idA level y hy2
      · have : y = idB := by simpa using hy2
        subst this
        exact Or.inr ((hd4 y).mpr hb)
    have hd5 : ∀ q, domHas s5 q ↔ domHas s q := fun q => by
      rw [hs5, domHas_setNb]; exact hd4 q
    by_cases hm2 : idA ∈ nbAt s5 idB level
    · rw [if_pos hm2]
      exact h5
    · rw [if_neg hm2]
      refine closedU_setNb h5 idB level (fun y hy => ?_)
      rcases List.mem_append.mp hy with hy2 | hy2
      · exact h5 idB level y hy2
      · have : y = idA := by simpa using hy2
        subst this
        exact Or.inr ((hd5 y).mpr ha)

theorem nbSet_addBidirectionalConnections_idB {s : HNSW} (idA idB : String)
    (level : Nat) (hb : domHas s idB) :
    NbSet (addBidirectionalConnections s idA idB level) idB level := by
  unfold addBidirectionalConnections
  simp only
  set s1 := lazyInitNb s idA level with hs1
  set s2 := lazyInitNb s1 idB level with hs2
  set s3 := setNb s2 idA level ((nbAt s2 idA level).filter (fun u => u ≠ ""))
    with hs3
  have hd3 : domHas s3 idB := by
    rw [hs3, domHas_setNb, hs2, domHas_lazyInitNb, hs1, domHas_lazyInitNb]
    exact hb
  set s4 := setNb s3 idB level ((nbAt s3 idB level).filter (fun u => u ≠ ""))
    with hs4
  have h4 : NbSet s4 idB level := nbSet_setNb_self s3 idB level _ hd3
  by_cases hm : idB ∈ nbAt s4 idA level
  · rw [if_pos hm]
    by_cases hm2 : idA ∈ nbAt s4 idB level
    · rw [if_pos hm2]
      exact h4
    · rw [if_neg hm2]
      exact nbSet_setNb_pres h4 idB level _
  · rw [if_neg hm]
    set s5 := setNb s4 idA level (nbAt s4 idA level ++ [idB]) with hs5
    have h5 : NbSet s5 idB level := nbSet_setNb_pres h4 idA level _
    by_cases hm2 : idA ∈ nbAt s5 idB level
    · rw [if_pos hm2]
      exact h5
    · rw [if_neg hm2]
      exact nbSet_setNb_pres h5 idB level _

theorem nbSet_addBidirectionalConnections_pres {s : HNSW} {q : String} {m : Nat}
    (h : NbSet s q m) (idA idB : String) (level : Nat) :
    NbSet (addBidirectionalConnections s idA idB level) q m := by
  unfold addBidirectionalConnections
  simp only
  set s1 := lazyInitNb s idA level with hs1
  set s2 := lazyInitNb s1 idB level with hs2
  set s3 := setNb s2 idA level ((nbAt s2 idA level).filter (fun u => u ≠ ""))
    with hs3
  set s4 := setNb s3 idB level ((nbAt s3 idB level).filter (fun u => u ≠ ""))
    with hs4
  have h4 : NbSet s4 q m :=
    nbSet_setNb_pres (nbSet_setNb_pres (nbSet_lazyInitNb_pres
      (nbSet_lazyInitNb_pres h idA level) idB level) idA level _) idB level _
  by_cases hm : idB ∈ nbAt s4 idA level
  · rw [if_pos hm]
    by_cases hm2 : idA ∈ nbAt s4 idB level
    · rw [if_pos hm2]
      exact h4
    · rw [if_neg hm2]
      exact nbSet_setNb_pres h4 idB level _
  · rw [if_neg hm]
    set s5 := setNb s4 idA level (nbAt s4 idA level ++ [idB]) with hs5
    have h5 : NbSet s5 q m := nbSet_setNb_pres h4 idA level _
    by_cases hm2 : idA ∈ nbAt s5 idB level
    · rw [if_pos hm2]
      exact h5
    · rw [if_neg hm2]
      exact nbSet_setNb_pres h5 idB level _

/-! Safety of searchLayer under adjacency closure. -/

theorem slSeed_safe (sim : SimFun) (s : HNSW) (query : List ℚ) :
    ∀ (eps visited : List String) (cand found : List (ℚ × String)),
      (∀ e ∈ eps, domHas s e) →
      (∀ c ∈ cand, domHas s c.2) → (∀ c ∈ found, domHas s c.2) →
      cand.length = found.length →
      ∃ v c f, slSeed sim s query eps visited cand found = some (v, c, f) ∧
        (∀ x ∈ c, domHas s x.2) ∧ (∀ x ∈ f, domHas s x.2) ∧
        c.length = f.length := by
  intro eps
  induction eps with
  | nil =>
    intro visited cand found _ hc hf hl
    exact ⟨visited, cand, found, rfl, hc, hf, hl⟩
  | cons e rest ih =>
    intro visited cand found heps hc hf hl
    have he : domHas s e := heps e (by simp)
    obtain ⟨n, hn⟩ := Option.isSome_iff_exists.mp he
    simp only [slSeed, hn]
    have hrest : ∀ x ∈ rest, domHas s x := fun x hx => heps x (by simp [hx])
    by_cases hv : visited.contains e
    · rw [if_pos hv]
      exact ih visited cand found hrest hc hf hl
    · rw [if_neg hv]
      refine ih (visited ++ [e]) _ _ hrest ?_ ?_ ?_
      · intro x hx
        rcases (mem_pqPush cand (sim query n.vector) e x).mp hx with rfl | hx2
        · exact he
        · exact hc x hx2
      · intro x hx
        rcases (mem_pqPush found (sim query n.vector) e x).mp hx with rfl | hx2
        · exact he
        · exact hf x hx2
      · rw [length_pqPush, length_pqPush, hl]

theorem slNbrs_safe (sim : SimFun) (s : HNSW) (query : List ℚ) (ef : Nat)
    (hef : 1 ≤ ef) :
    ∀ (nbrs visited : List String) (cand found : List (ℚ × String)),
      (∀ nb ∈ nbrs, nb = "" ∨ domHas s nb) →
      (∀ c ∈ cand, domHas s c.2) → (∀ c ∈ found, domHas s c.2) →
      found ≠ [] →
      ∃ v c f, slNbrs sim s query ef nbrs visited cand found = some (v, c, f) ∧
        (∀ x ∈ c, domHas s x.2) ∧ (∀ x ∈ f, domHas s x.2) ∧ f ≠ [] := by
  intro nbrs
  induction nbrs with
  | nil =>
    intro visited cand found _ hc hf hne
    exact ⟨visited, cand, found, rfl, hc, hf, hne⟩
  | cons nb rest ih =>
    intro visited cand found hnb hc hf hne
    have hrest : ∀ x ∈ rest, x = "" ∨ domHas s x := fun x hx =>
      hnb x (by simp [hx])
    simp only [slNbrs]
    by_cases hcond : nb ≠ "" ∧ ¬ visited.contains nb
    · rw [if_pos hcond]
      have hdom : domHas s nb := by
        rcases hnb nb (by simp) with he | hd
        · exact absurd he hcond.1
        · exact hd
      obtain ⟨nn, hnn⟩ := Option.isSome_iff_exists.mp hdom
      rw [hnn]
      dsimp only
      have hguard : ¬ (found.length ≥ ef ∧ found.getLast? = none) := by
        rintro ⟨_, hnone⟩
        rw [List.getLast?_eq_none_iff] at hnone
        exact hne hnone
      rw [if_neg hguard]
      by_cases hpush : (if found.length < ef then true
          else match found.getLast? with
               | none => true
               | some f => decide (sim query nn.vector > f.1)) = true
      · rw [if_pos hpush]
        set found1 := pqPush found (sim query nn.vector) nb with hf1
        set found2 := if found1.length > ef then found1.dropLast else found1
          with hf2
        refine ih (visited ++ [nb]) _ found2 hrest ?_ ?_ ?_
        · intro x hx
          rcases (mem_pqPush cand (sim query nn.vector) nb x).mp hx with rfl | hx2
          · exact hdom
          · exact hc x hx2
        · intro x hx
          have hx1 : x ∈ found1 := by
            rw [hf2] at hx
            by_cases hlen : found1.length > ef
            · rw [if_pos hlen] at hx
              exact (List.dropLast_sublist found1).subset hx
            · rw [if_neg hlen] at hx
              exact hx
          rcases (mem_pqPush found (sim query nn.vector) nb x).mp hx1 with rfl | hx2
          · exact hdom
          · exact hf x hx2
        · have hlen1 : found1.length = found.length + 1 := by
            rw [hf1, length_pqPush]
          rw [hf2]
          have hpos : 0 < found.length := List.length_pos.mpr hne
          by_cases hlen : found1.length > ef
          · rw [if_pos hlen]
            have hlp : found1.dropLast.length = found.length := by
              rw [List.length_dropLast, hlen1]
              omega
            intro hemp
            rw [hemp] at hlp
            simp at hlp
            omega
          · rw [if_neg hlen]
            intro hemp
            rw [hemp] at hlen1
            simp at hlen1
      · rw [if_neg hpush]
        exact ih (visited ++ [nb]) cand found hrest hc hf hne
    · rw [if_neg hcond]
      exact ih visited cand found hrest hc hf hne

theorem slLoop_safe (sim : SimFun) (query : List ℚ) (ef level : Nat)
    (hef : 1 ≤ ef) :
    ∀ (fuel : Nat) (s : HNSW) (visited : List String)
      (cand found : List (ℚ × String)), ClosedU s →
      (∀ c ∈ cand, domHas s c.2) → (∀ c ∈ found, domHas s c.2) →
      (found = [] → cand = []) →
      (slLoop sim query ef level fuel s visited cand found).isErr = false ∧
      ∀ s2 out, slLoop sim query ef level fuel s visited cand found = .ok s2 out →
        ∀ c ∈ out, domHas s2 c.2 := by
  intro fuel
  induction fuel with
  | zero =>
    intro s visited cand found _ _ _ _
    refine ⟨rfl, fun s2 out h => ?_⟩
    cases h
  | succ fuel ih =>
    intro s visited cand found hcl hc hf hsync
    cases cand with
    | nil =>
      refine ⟨rfl, fun s2 out h => ?_⟩
      cases h
      exact hf
    | cons c crest =>
      obtain ⟨ck, cid⟩ := c
      have hfne : found ≠ [] := by
        intro hemp
        exact (by simp : ¬ ((ck, cid) :: crest = ([] : List (ℚ × String))))
          (hsync hemp)
      obtain ⟨flast, hL⟩ : ∃ f, found.getLast? = some f := by
        cases hL2 : found.getLast? with
        | none => exact absurd (List.getLast?_eq_none_iff.mp hL2) hfne
        | some f => exact ⟨f, rfl⟩
      simp only [slLoop, hL]
      by_cases hlt : ck < flast.1
      · rw [if_pos hlt]
        refine ⟨rfl, fun s2 out h => ?_⟩
        cases h
        exact hf
      · rw [if_neg hlt]
        have hdomc : domHas s cid := hc (ck, cid) (by simp)
        obtain ⟨cnode, hg⟩ := Option.isSome_iff_exists.mp hdomc
        rw [hg]
        dsimp only
        have hcl1 : ClosedU (if jsGet cnode.neighbors level = none
            then setNb s cid level [] else s) := by
          by_cases hnone : jsGet cnode.neighbors level = none
          · rw [if_pos hnone]
            exact closedU_setNb hcl cid level (by simp)
          · rw [if_neg hnone]
            exact hcl
        have hd1 : ∀ q, domHas (if jsGet cnode.neighbors level = none
            then setNb s cid level [] else s) q ↔ domHas s q := by
          intro q
          by_cases hnone : jsGet cnode.neighbors level = none
          · rw [if_pos hnone]
            exact domHas_setNb s cid level [] q
          · rw [if_neg hnone]
        have hnbrs : ∀ nb ∈ (jsGet cnode.neighbors level).getD [],
            nb = "" ∨ domHas (if jsGet cnode.neighbors level = none
              then setNb s cid level [] else s) nb := by
          intro nb hnb
          have : nb ∈ nbAt s cid level := by
            unfold nbAt
            rw [hg]
            exact hnb
          rcases hcl cid level nb this with he | hd
          · exact Or.inl he
          · exact Or.inr ((hd1 nb).mpr hd)
        obtain ⟨v2, c2, f2, heq, hc2, hf2, hf2ne⟩ :=
          slNbrs_safe sim _ query ef hef ((jsGet cnode.neighbors level).getD [])
            visited crest found hnbrs
            (fun x hx => (hd1 x.2).mpr (hc x (by simp [hx])))
            (fun x hx => (hd1 x.2).mpr (hf x hx)) hfne
        rw [heq]
        dsimp only
        exact ih _ v2 c2 f2 hcl1 hc2 hf2 (fun h => absurd h hf2ne)

theorem searchLayer_safe (sim : SimFun) (s : HNSW) (query : List ℚ)
    (eps : List String) (ef level fuel : Nat) (hcl : ClosedU s)
    (heps : ∀ e ∈ eps, domHas s e) (hef : 1 ≤ ef) :
    (searchLayer sim s query eps ef level fuel).isErr = false ∧
    ∀ s2 out, searchLayer sim s query eps ef level fuel = .ok s2 out →
      ∀ c ∈ out, domHas s2 c.2 := by
  obtain ⟨v, c, f, heq, hc, hf, hl⟩ :=
    slSeed_safe sim s query eps [] [] [] heps (by simp) (by simp) rfl
  unfold searchLayer
  rw [heq]
  refine slLoop_safe sim query ef level hef fuel s v c f hcl hc hf ?_
  intro hemp
  rw [hemp] at hl
  simp only [List.length_nil] at hl
  exact List.length_eq_zero.mp hl

theorem WFrame.domHas_iff {s s' : HNSW} (h : WFrame s s') (q : String) :
    domHas s' q ↔ domHas s q := by
  unfold domHas
  rw [mapGet_isSome_iff_mem, mapGet_isSome_iff_mem, h.2.2.2.2.2.2.2.1]

theorem closedU_stateFrame {s s' : HNSW} (h : StateFrame s s')
    (hcl : ClosedU s) : ClosedU s' := by
  intro q l y hy
  rw [h.nbAt_eq q l] at hy
  rcases hcl q l y hy with he | hd
  · exact Or.inl he
  · exact Or.inr (((stateFrame_wframe h).domHas_iff y).mpr hd)

theorem mem_selectNeighbors {l : List (ℚ × String)} {k : Nat} {x : ℚ × String}
    (h : x ∈ selectNeighbors l k) : x ∈ l := by
  unfold selectNeighbors at h
  by_cases hk : k ≥ l.length
  · rw [if_pos hk] at h
    exact h
  · rw [if_neg hk] at h
    exact (List.take_sublist k l).subset h

theorem mem_pq_fold {sim : SimFun} {s : HNSW} {w : List ℚ} :
    ∀ (lst : List String) (q0 : List (ℚ × String)),
      (∀ x ∈ q0, domHas s x.2) →
      ∀ x ∈ lst.foldl (fun q nbId =>
          match mapGet s.nodes nbId with
          | some nn => pqPush q (sim w nn.vector) nbId
          | none => q) q0,
        domHas s x.2 := by
  intro lst
  induction lst with
  | nil => intro q0 h0 x hx; exact h0 x hx
  | cons nbId rest ih =>
    intro q0 h0 x hx
    simp only [List.foldl_cons] at hx
    cases hg : mapGet s.nodes nbId with
    | none =>
      rw [hg] at hx
      exact ih q0 h0 x hx
    | some nn =>
      rw [hg] at hx
      refine ih _ ?_ x hx
      intro z hz
      rcases (mem_pqPush q0 (sim w nn.vector) nbId z).mp hz with rfl | hz2
      · exact (by simp [domHas, hg] : domHas s nbId)
      · exact h0 z hz2

theorem shrink_safe (sim : SimFun) (s : HNSW) (id : String) (level : Nat)
    (hcl : ClosedU s) (hset : domHas s id → NbSet s id level) :
    ∃ s', shrinkConnectionsIfNeeded sim s id level = .ok s' () ∧
      WFrame s s' ∧ ClosedU s' ∧ ∀ q m, NbSet s q m → NbSet s' q m := by
  unfold shrinkConnectionsIfNeeded
  cases hg : mapGet s.nodes id with
  | none => exact ⟨s, rfl, WFrame.refl_w s, hcl, fun _ _ h => h⟩
  | some node =>
    dsimp only
    have hdom : domHas s id := by simp [domHas, hg]
    obtain ⟨n2, lst, hg2, hj⟩ := hset hdom
    rw [hg] at hg2
    cases hg2
    rw [hj]
    dsimp only
    by_cases hlen : lst.length > s.M
    · rw [if_pos hlen]
      refine ⟨_, rfl, wframe_setNb s id level _, ?_,
        fun q m h => nbSet_setNb_pres h id level _⟩
      refine closedU_setNb hcl id level (fun y hy => ?_)
      obtain ⟨c, hcmem, rfl⟩ := List.mem_map.mp hy
      exact Or.inr (mem_pq_fold lst [] (by simp) c
        (mem_selectNeighbors hcmem))
    · rw [if_neg hlen]
      exact ⟨s, rfl, WFrame.refl_w s, hcl, fun _ _ h => h⟩

theorem addBiFold_safe (nodeId : String) (i : Nat) :
    ∀ (selected : List String) (s : HNSW), ClosedU s → domHas s nodeId →
      WFrame s (selected.foldl (fun st nid =>
          match mapGet st.nodes nid with
          | none => st
          | some _ => addBidirectionalConnections st nodeId nid i) s) ∧
      ClosedU (selected.foldl (fun st nid =>
          match mapGet st.nodes nid with
          | none => st
          | some _ => addBidirectionalConnections st nodeId nid i) s) ∧
      (∀ q m, NbSet s q m → NbSet (selected.foldl (fun st nid =>
          match mapGet st.nodes nid with
          | none => st
          | some _ => addBidirectionalConnections st nodeId nid i) s) q m) ∧
      (∀ nid ∈ selected, domHas s nid →
        NbSet (selected.foldl (fun st nid =>
          match mapGet st.nodes nid with
          | none => st
          | some _ => addBidirectionalConnections st nodeId nid i) s) nid i) := by
  intro selected
  induction selected with
  | nil =>
    intro s hcl hdom
    exact ⟨WFrame.refl_w s, hcl, fun _ _ h => h, by simp⟩
  | cons nid rest ih =>
    intro s hcl hdom
    simp only [List.foldl_cons]
    cases hg : mapGet s.nodes nid with
    | none =>
      obtain ⟨hw, hc, hp, hsel⟩ := ih s hcl hdom
      refine ⟨hw, hc, hp, ?_⟩
      intro x hx hdx
      rcases List.mem_cons.mp hx with rfl | hx2
      · rw [domHas, hg] at hdx
        simp at hdx
      · exact hsel x hx2 hdx
    | some n =>
      have hdnid : domHas s nid := by simp [domHas, hg]
      have hwA : WFrame s (addBidirectionalConnections s nodeId nid i) :=
        wframe_addBidirectionalConnections s nodeId nid i
      have hcA : ClosedU (addBidirectionalConnections s nodeId nid i) :=
        closedU_addBidirectionalConnections hcl nodeId nid i hdom hdnid
      have hdomA : domHas (addBidirectionalConnections s nodeId nid i) nodeId :=
        (hwA.domHas_iff nodeId).mpr hdom
      obtain ⟨hw, hc, hp, hsel⟩ := ih _ hcA hdomA
      refine ⟨hwA.comp_w hw, hc, ?_, ?_⟩
      · intro q m h
        exact hp q m (nbSet_addBidirectionalConnections_pres h nodeId nid i)
      · intro x hx hdx
        rcases List.mem_cons.mp hx with rfl | hx2
        · exact hp x i (nbSet_addBidirectionalConnections_idB nodeId x i hdnid)
        · exact hsel x hx2 ((hwA.domHas_iff x).mpr hdx)

theorem shrinkFold_safe (sim : SimFun) (i : Nat) :
    ∀ (selected : List String) (s : HNSW), ClosedU s →
      (∀ nid ∈ selected, domHas s nid → NbSet s nid i) →
      ∃ s3, shrinkFold sim s selected i = .ok s3 () ∧ WFrame s s3 ∧
        ClosedU s3 := by
  intro selected
  induction selected with
  | nil =>
    intro s hcl _
    exact ⟨s, rfl, WFrame.refl_w s, hcl⟩
  | cons nid rest ih =>
    intro s hcl hsel
    simp only [shrinkFold]
    cases hg : mapGet s.nodes nid with
    | none => exact ih s hcl (fun x hx => hsel x (by simp [hx]))
    | some n =>
      dsimp only
      obtain ⟨sS, hSeq, hSw, hScl, hSp⟩ :=
        shrink_safe sim s nid i hcl (fun hd => hsel nid (by simp) hd)
      rw [hSeq]
      obtain ⟨s3, h3eq, h3w, h3cl⟩ := ih sS hScl (fun x hx hdx => by
        refine hSp x i ?_
        exact hsel x (by simp [hx]) ((hSw.domHas_iff x).mp hdx))
      exact ⟨s3, h3eq, hSw.comp_w h3w, h3cl⟩

theorem angLoop1_safe (sim : SimFun) (query : List ℚ) (fuel : Nat) :
    ∀ (lvls : List Nat) (s : HNSW) (eps : List String), ClosedU s →
      (∀ e ∈ eps, domHas s e) →
      (angLoop1 sim query fuel lvls s eps).isErr = false ∧
      ∀ s1 eps1, angLoop1 sim query fuel lvls s eps = .ok s1 eps1 →
        StateFrame s s1 ∧ ∀ e ∈ eps1, domHas s1 e := by
  intro lvls
  induction lvls with
  | nil =>
    intro s eps hcl heps
    refine ⟨rfl, fun s1 eps1 h => ?_⟩
    cases h
    exact ⟨StateFrame.refl_state s, heps⟩
  | cons i rest ih =>
    intro s eps hcl heps
    simp only [angLoop1]
    obtain ⟨hne, hmem⟩ := searchLayer_safe sim s query eps 1 i fuel hcl heps
      (le_refl 1)
    cases hsl : searchLayer sim s query eps 1 i fuel with
    | err s' m =>
      rw [hsl] at hne
      simp [Res.isErr] at hne
    | fuelOut s' =>
      refine ⟨rfl, fun s1 eps1 h => ?_⟩
      cases h
    | ok s' out =>
      dsimp only
      have hfr : StateFrame s s' := by
        simpa [hsl, Res.state] using searchLayer_frame sim s query eps 1 i fuel
      have hcl' : ClosedU s' := closedU_stateFrame hfr hcl
      have heps' : ∀ e ∈ (match out with
          | [] => eps
          | c :: _ => [c.2]), domHas s' e := by
        cases out with
        | nil =>
          intro e he
          exact ((stateFrame_wframe hfr).domHas_iff e).mpr (heps e he)
        | cons c crest =>
          intro e he
          have : e = c.2 := by simpa using he
          subst this
          exact hmem s' (c :: crest) hsl c (by simp)
      obtain ⟨hne2, hok2⟩ := ih s' _ hcl' heps'
      refine ⟨hne2, fun s1 eps1 h => ?_⟩
      obtain ⟨hfr2, hd2⟩ := hok2 s1 eps1 h
      exact ⟨hfr.comp_state hfr2, hd2⟩

theorem angLoop2_safe (sim : SimFun) (query : List ℚ) (nodeId : String)
    (fuel : Nat) :
    ∀ (lvls : List Nat) (s : HNSW) (eps : List String), ClosedU s →
      domHas s nodeId → (∀ e ∈ eps, domHas s e) → 1 ≤ s.efConstruction →
      (angLoop2 sim query nodeId fuel lvls s eps).isErr = false ∧
      ∀ s2 a, angLoop2 sim query nodeId fuel lvls s eps = .ok s2 a →
        WFrame s s2 := by
  intro lvls
  induction lvls with
  | nil =>
    intro s eps hcl hdom heps hef
    refine ⟨rfl, fun s2 a h => ?_⟩
    cases h
    exact WFrame.refl_w s
  | cons i rest ih =>
    intro s eps hcl hdom heps hef
    simp only [angLoop2]
    obtain ⟨hne, hmem⟩ := searchLayer_safe sim s query eps s.efConstruction i
      fuel hcl heps hef
    cases hsl : searchLayer sim s query eps s.efConstruction i fuel with
    | err s' m =>
      rw [hsl] at hne
      simp [Res.isErr] at hne
    | fuelOut s' =>
      refine ⟨rfl, fun s2 a h => ?_⟩
      cases h
    | ok s' out =>
      dsimp only
      have hfr : StateFrame s s' := by
        simpa [hsl, Res.state] using searchLayer_frame sim s query eps
          s.efConstruction i fuel
      have hw1 : WFrame s s' := stateFrame_wframe hfr
      have hcl' : ClosedU s' := closedU_stateFrame hfr hcl
      have hdom' : domHas s' nodeId := (hw1.domHas_iff nodeId).mpr hdom
      have hselmem : ∀ nid ∈ (selectNeighbors out s'.M).map Prod.snd,
          domHas s' nid := by
        intro nid hn
        obtain ⟨c, hcmem, rfl⟩ := List.mem_map.mp hn
        exact hmem s' out hsl c (mem_selectNeighbors hcmem)
      obtain ⟨hwF, hclF, hpF, hselF⟩ :=
        addBiFold_safe nodeId i ((selectNeighbors out s'.M).map Prod.snd) s'
          hcl' hdom'
      obtain ⟨s3, h3eq, h3w, h3cl⟩ := shrinkFold_safe sim i
        ((selectNeighbors out s'.M).map Prod.snd) _ hclF
        (fun nid hn _ => hselF nid hn (hselmem nid hn))
      rw [h3eq]
      dsimp only
      have hw3 : WFrame s s3 := (hw1.comp_w hwF).comp_w h3w
      have heps3 : ∀ e ∈ out.map Prod.snd, domHas s3 e := by
        intro e he
        obtain ⟨c, hcmem, rfl⟩ := List.mem_map.mp he
        exact ((hwF.comp_w h3w).domHas_iff c.2).mpr (hmem s' out hsl c hcmem)
      have hdom3 : domHas s3 nodeId := (((hwF.comp_w h3w)).domHas_iff nodeId).mpr
        hdom'
      have hef3 : 1 ≤ s3.efConstruction := by
        rw [hw3.2.2.2.1]
        exact hef
      obtain ⟨hne2, hok2⟩ := ih s3 (out.map Prod.snd) h3cl hdom3 heps3 hef3
      refine ⟨hne2, fun s2 a h => ?_⟩
      exact hw3.comp_w (hok2 s2 a h)

theorem addNodeToGraph_safe (sim : SimFun) (s : HNSW) (nodeId : String)
    (nodeInsertionLevel fuel : Nat) (hcl : ClosedU s) (hdom : domHas s nodeId)
    (hef : 1 ≤ s.efConstruction) :
    (addNodeToGraphOptimized sim s nodeId nodeInsertionLevel fuel).isErr = false ∧
    ∀ s2 a, addNodeToGraphOptimized sim s nodeId nodeInsertionLevel fuel
        = .ok s2 a →
      s2.nodes.map Prod.fst = s.nodes.map Prod.fst ∧
      ∀ id n, mapGet s.nodes id = some n → ∃ n', mapGet s2.nodes id = some n' ∧
        n'.uniqueid = n.uniqueid ∧ n'.vector = n.vector ∧ n'.level = n.level ∧
        n'.deleted = n.deleted := by
  unfold addNodeToGraphOptimized
  by_cases hep : s.entryPointId = ""
  · rw [if_pos hep]
    refine ⟨rfl, fun s2 a h => ?_⟩
    cases h
    exact ⟨rfl, fun id n hg => ⟨n, hg, rfl, rfl, rfl, rfl⟩⟩
  · rw [if_neg hep]
    obtain ⟨node, hgnode⟩ := Option.isSome_iff_exists.mp hdom
    rw [hgnode]
    dsimp only
    have heps0 : ∀ e ∈ (match mapGet s.nodes s.entryPointId with
        | some _ => [s.entryPointId]
        | none => []), domHas s e := by
      cases hge : mapGet s.nodes s.entryPointId with
      | none => simp
      | some n =>
        intro e he
        have : e = s.entryPointId := by simpa using he
        subst this
        simp [domHas, hge]
    obtain ⟨hne1, hok1⟩ := angLoop1_safe sim node.vector fuel
      (downTo s.levelMax (nodeInsertionLevel + 1)) s _ hcl heps0
    cases h1 : angLoop1 sim node.vector fuel
        (downTo s.levelMax (nodeInsertionLevel + 1)) s
        (match mapGet s.nodes s.entryPointId with
         | some _ => [s.entryPointId]
         | none => []) with
    | err s' m =>
      rw [h1] at hne1
      simp [Res.isErr] at hne1
    | fuelOut s' =>
      refine ⟨rfl, fun s2 a h => ?_⟩
      cases h
    | ok s1 eps1 =>
      dsimp only
      obtain ⟨hfr1, hd1⟩ := hok1 s1 eps1 h1
      have hw1 : WFrame s s1 := stateFrame_wframe hfr1
      have hcl1 : ClosedU s1 := closedU_stateFrame hfr1 hcl
      have hdom1 : domHas s1 nodeId := (hw1.domHas_iff nodeId).mpr hdom
      have hef1 : 1 ≤ s1.efConstruction := by
        rw [hw1.2.2.2.1]
        exact hef
      obtain ⟨hne2, hok2⟩ := angLoop2_safe sim node.vector nodeId fuel
        (downTo (min s1.levelMax nodeInsertionLevel) 0) s1 eps1 hcl1 hdom1 hd1
        hef1
      cases h2 : angLoop2 sim node.vector nodeId fuel
          (downTo (min s1.levelMax nodeInsertionLevel) 0) s1 eps1 with
      | err s' m =>
        rw [h2] at hne2
        simp [Res.isErr] at hne2
      | fuelOut s' =>
        refine ⟨rfl, fun s2 a h => ?_⟩
        cases h
      | ok sW aW =>
        dsimp only
        have hw2 : WFrame s sW := hw1.comp_w (hok2 sW aW h2)
        by_cases hlm : sW.levelMax < nodeInsertionLevel
        · rw [if_pos hlm]
          refine ⟨rfl, fun s2 a h => ?_⟩
          cases h
          exact ⟨hw2.2.2.2.2.2.2.2.1, hw2.2.2.2.2.2.2.2.2⟩
        · rw [if_neg hlm]
          refine ⟨rfl, fun s2 a h => ?_⟩
          cases h
          exact ⟨hw2.2.2.2.2.2.2.2.1, hw2.2.2.2.2.2.2.2.2⟩

theorem jsGet_nil (i : Nat) : jsGet ([] : List (Option α)) i = none := by
  simp [jsGet]

theorem closedU_overwrite {s s' : HNSW} (hcl : ClosedU s) (id : String)
    (node : AstroNode) (hnb : node.neighbors = []) (hdom : domHas s id)
    (hnodes : s'.nodes = mapSet s.nodes id node) : ClosedU s' := by
  intro q l y hy
  by_cases hq : q = id
  · subst hq
    unfold nbAt at hy
    rw [hnodes, mapGet_mapSet_self] at hy
    dsimp only at hy
    rw [hnb, jsGet_nil] at hy
    simp at hy
  · unfold nbAt at hy
    rw [hnodes, mapGet_mapSet_ne _ _ _ _ hq] at hy
    have hy2 : y ∈ nbAt s q l := by
      unfold nbAt
      exact hy
    rcases hcl q l y hy2 with he | hd
    · exact Or.inl he
    · refine Or.inr ?_
      unfold domHas at hd ⊢
      rw [hnodes, mapGet_isSome_iff_mem, map_fst_mapSet_of_isSome _ _ _ hdom,
        ← mapGet_isSome_iff_mem]
      exact hd

/-- Claim C10: addPoint on an id already stored (tombstoned or not), with
a non-empty vector of the stored dimension, is not rejected and does not
throw; on completion the key sequence of the node map is unchanged (so
the number of keys is unchanged) and the id's slot holds a fresh record:
its identity is the id, its vector the new vector, its level the freshly
drawn level (selectLevel of the probability table and the sample), and
its tombstone flag cleared.  Edges in other nodes' adjacency lists that
mention the id resolve, through the id-keyed map, to this new record. -/
theorem claim10_addPoint_overwrites (sim : SimFun) (s : HNSW) (id : String)
    (v : List ℚ) (r : ℚ) (fuel : Nat) (dd : Nat)
    (hcl : Closed s) (hdom : domHas s id) (hv : v ≠ [])
    (hd : s.d = some dd) (hlen : v.length = dd) (hef : 1 ≤ s.efConstruction) :
    (addPoint sim s id v r fuel).isErr = false ∧
    ∀ s2 a, addPoint sim s id v r fuel = .ok s2 a →
      s2.nodes.map Prod.fst = s.nodes.map Prod.fst ∧
      ∃ n', mapGet s2.nodes id = some n' ∧ n'.uniqueid = id ∧ n'.vector = v ∧
        n'.level = selectLevel s.probs r ∧ n'.deleted = false := by
  unfold addPoint
  rw [if_neg hv]
  have hb : (match s.d with
      | some dd => v.length != dd
      | none => false) = false := by
    rw [hd]
    simpa using hlen
  rw [hb]
  simp only [Bool.false_eq_true, if_false]
  set s3 : HNSW :=
    { metric := s.metric, d := some v.length, M := s.M,
      efConstruction := s.efConstruction,
      levelMax := max s.levelMax (selectLevel s.probs r),
      entryPointId := s.entryPointId,
      nodes := mapSet s.nodes id
        (astroNodeNew id v (selectLevel s.probs r) s.M),
      probs := s.probs } with hs3
  have hgoal : (addNodeToGraphOptimized sim s3 id (selectLevel s.probs r)
      fuel).isErr = false ∧
      ∀ s2 a, addNodeToGraphOptimized sim s3 id (selectLevel s.probs r) fuel
          = .ok s2 a →
        s2.nodes.map Prod.fst = s.nodes.map Prod.fst ∧
        ∃ n', mapGet s2.nodes id = some n' ∧ n'.uniqueid = id ∧
          n'.vector = v ∧ n'.level = selectLevel s.probs r ∧
          n'.deleted = false := by
    have hcl3 : ClosedU s3 :=
      closedU_overwrite (closed_closedU hcl) id _ rfl hdom (by rw [hs3])
    have hdom3 : domHas s3 id := by
      unfold domHas
      rw [hs3]
      simp [mapGet_mapSet_self]
    have hef3 : 1 ≤ s3.efConstruction := hef
    obtain ⟨hne, hok⟩ := addNodeToGraph_safe sim s3 id (selectLevel s.probs r)
      fuel hcl3 hdom3 hef3
    refine ⟨hne, fun s2 a h => ?_⟩
    obtain ⟨hkeys, hrec⟩ := hok s2 a h
    constructor
    · rw [hkeys, hs3]
      exact map_fst_mapSet_of_isSome s.nodes id _ hdom
    · have hg3 : mapGet s3.nodes id
          = some (astroNodeNew id v (selectLevel s.probs r) s.M) := by
        rw [hs3]
        exact mapGet_mapSet_self s.nodes id _
      obtain ⟨n', hg', hu, hvec, hlev, hdel⟩ := hrec id _ hg3
      exact ⟨n', hg', hu, hvec, hlev, hdel⟩
  exact hgoal

/-- Witness for C10: re-adding the already-present id "a" on a concrete
two-node index is not rejected and does not throw. -/
theorem claim10_witness :
    (addPoint euclidSim1 c3Base "a" [5] 0 60).isErr = false :=
  (claim10_addPoint_overwrites euclidSim1 c3Base "a" [5] 0 60 1
    (by with_unfolding_all decide) (by with_unfolding_all decide)
    (by decide) (by with_unfolding_all decide) (by decide)
    (by with_unfolding_all decide)).1

/-! Claim C6: infrastructure.  The no-self-loop invariant in lookup form,
and how each wiring primitive acts on it. -/

/-- No self-loop, in the lookup form used by the proofs. -/
def NoSelfLoopU (s : HNSW) : Prop :=
  ∀ q l, q ∉ nbAt s q l

/-- The id appears in no adjacency list, in lookup form. -/
def NotRefU (s : HNSW) (id : String) : Prop :=
  ∀ q l, id ∉ nbAt s q l

theorem noSelfLoop_U {s : HNSW} (h : NoSelfLoop s) : NoSelfLoopU s := by
  intro q l hq
  unfold nbAt at hq
  cases hg : mapGet s.nodes q with
  | none => rw [hg] at hq; simp at hq
  | some n =>
    rw [hg] at hq
    dsimp only at hq
    cases hj : jsGet n.neighbors l with
    | none => rw [hj] at hq; simp at hq
    | some lst =>
      have hlt : l < n.neighbors.length := jsGet_some_lt hj
      exact h (q, n) (mapGet_mem hg) l (List.mem_range.mpr hlt)
        (by rw [hj] at hq ⊢; exact hq)

theorem nodup_mapGet_mem {m : NodeMap} (hnd : (m.map Prod.fst).Nodup)
    {p : String × AstroNode} (hp : p ∈ m) : mapGet m p.1 = some p.2 := by
  induction m with
  | nil => cases hp
  | cons q rest ih =>
    simp only [List.map_cons, List.nodup_cons] at hnd
    rcases List.mem_cons.mp hp with rfl | hp2
    · simp [mapGet]
    · have hne : q.1 ≠ p.1 := by
        intro hc
        exact hnd.1 (hc ▸ List.mem_map.mpr ⟨p, hp2, rfl⟩)
      simp only [mapGet, if_neg hne]
      exact ih hnd.2 hp2

theorem noSelfLoopU_bounded {s : HNSW} (hnd : (s.nodes.map Prod.fst).Nodup)
    (h : NoSelfLoopU s) : NoSelfLoop s := by
  intro p hp l _ hq
  have hg : mapGet s.nodes p.1 = some p.2 := nodup_mapGet_mem hnd hp
  exact h p.1 l (by unfold nbAt; rw [hg]; exact hq)

theorem notRef_U {s : HNSW} {id : String}
    (h : ∀ p ∈ s.nodes, ∀ l ∈ List.range p.2.neighbors.length,
      id ∉ (jsGet p.2.neighbors l).getD []) : NotRefU s id := by
  intro q l hq
  unfold nbAt at hq
  cases hg : mapGet s.nodes q with
  | none => rw [hg] at hq; simp at hq
  | some n =>
    rw [hg] at hq
    dsimp only at hq
    cases hj : jsGet n.neighbors l with
    | none => rw [hj] at hq; simp at hq
    | some lst =>
      have hlt : l < n.neighbors.length := jsGet_some_lt hj
      exact h (q, n) (mapGet_mem hg) l (List.mem_range.mpr hlt)
        (by rw [hj] at hq ⊢; exact hq)

theorem nodup_keys_mapSet {m : NodeMap} (hnd : (m.map Prod.fst).Nodup)
    (k : String) (v : AstroNode) : ((mapSet m k v).map Prod.fst).Nodup := by
  cases hg : mapGet m k with
  | some n =>
    rw [map_fst_mapSet_of_isSome m k v (by simp [hg])]
    exact hnd
  | none =>
    rw [mapSet_of_get_none m k v hg]
    rw [List.map_append]
    simp only [List.map_cons, List.map_nil]
    rw [List.nodup_append]
    refine ⟨hnd, by simp, ?_⟩
    intro x hx
    simp only [List.mem_singleton]
    intro hc
    subst hc
    have : (mapGet m x).isSome = true := (mapGet_isSome_iff_mem m x).mpr hx
    rw [hg] at this
    simp at this

theorem downTo_nodup (a b : Nat) : (downTo a b).Nodup := by
  unfold downTo
  refine List.Nodup.map_on ?_ (List.nodup_range _)
  intro x hx y hy hxy
  rw [List.mem_range] at hx hy
  omega

theorem noSelfLoopU_stateFrame {s s' : HNSW} (h : StateFrame s s')
    (hn : NoSelfLoopU s) : NoSelfLoopU s' := by
  intro q l
  rw [h.nbAt_eq q l]
  exact hn q l

theorem notRefU_stateFrame {s s' : HNSW} {id : String} (h : StateFrame s s')
    (hn : NotRefU s id) : NotRefU s' id := by
  intro q l
  rw [h.nbAt_eq q l]
  exact hn q l

theorem nbAt_setNb_other_level (s : HNSW) (id : String) (l m : Nat)
    (nb : List String) (hm : m ≠ l) (q : String) :
    nbAt (setNb s id l nb) q m = nbAt s q m := by
  by_cases hq : q = id
  · subst hq
    exact nbAt_setNb_same_id_diff_level s q l m nb hm
  · exact nbAt_setNb_diff s id l nb q hq m

theorem nbAt_lazyInitNb_eq (s : HNSW) (id : String) (l : Nat) (q : String)
    (m : Nat) : nbAt (lazyInitNb s id l) q m = nbAt s q m := by
  unfold lazyInitNb
  cases hg : mapGet s.nodes id with
  | none => rfl
  | some n =>
    dsimp only
    by_cases hno : jsGet n.neighbors l = none
    · rw [if_pos hno]
      by_cases hq : q = id
      · subst hq
        by_cases hm : m = l
        · subst hm
          rw [nbAt_setNb_self s q m [] (by simp [hg])]
          simp [nbAt, hg, hno]
        · exact nbAt_setNb_same_id_diff_level s q l m [] hm
      · exact nbAt_setNb_diff s id l [] q hq m
    · rw [if_neg hno]

theorem noSelfLoopU_setNb {s : HNSW} (h : NoSelfLoopU s) (id : String)
    (l : Nat) {nb : List String} (hid : id ∉ nb) :
    NoSelfLoopU (setNb s id l nb) := by
  intro q m
  by_cases hq : q = id
  · subst hq
    by_cases hm : m = l
    · subst hm
      cases hg : mapGet s.nodes q with
      | none => rw [setNb_of_absent s q m nb hg]; exact h q m
      | some n =>
        rw [nbAt_setNb_self s q m nb (by simp [hg])]
        exact hid
    · rw [nbAt_setNb_same_id_diff_level s q l m nb hm]
      exact h q m
  · rw [nbAt_setNb_diff s id l nb q hq m]
    exact h q m

theorem noSelfLoopU_lazyInitNb {s : HNSW} (h : NoSelfLoopU s) (id : String)
    (l : Nat) : NoSelfLoopU (lazyInitNb s id l) := by
  intro q m
  rw [nbAt_lazyInitNb_eq s id l q m]
  exact h q m

theorem nbAt_addBi_other_level (s : HNSW) (idA idB : String) (level m : Nat)
    (hm : m ≠ level) (q : String) :
    nbAt (addBidirectionalConnections s idA idB level) q m = nbAt s q m := by
  unfold addBidirectionalConnections
  simp only
  set s1 := lazyInitNb s idA level with hs1
  set s2 := lazyInitNb s1 idB level with hs2
  set s3 := setNb s2 idA level ((nbAt s2 idA level).filter (fun u => u ≠ ""))
    with hs3
  set s4 := setNb s3 idB level ((nbAt s3 idB level).filter (fun u => u ≠ ""))
    with hs4
  have h4 : nbAt s4 q m = nbAt s q m := by
    rw [hs4, nbAt_setNb_other_level _ _ _ _ _ hm, hs3,
      nbAt_setNb_other_level _ _ _ _ _ hm, hs2, nbAt_lazyInitNb_eq, hs1,
      nbAt_lazyInitNb_eq]
  by_cases hmem : idB ∈ nbAt s4 idA level
  · rw [if_pos hmem]
    by_cases hmem2 : idA ∈ nbAt s4 idB level
    · rw [if_pos hmem2]
      exact h4
    · rw [if_neg hmem2]
      rw [nbAt_setNb_other_level _ _ _ _ _ hm]
      exact h4
  · rw [if_neg hmem]
    set s5 := setNb s4 idA level (nbAt s4 idA level ++ [idB]) with hs5
    have h5 : nbAt s5 q m = nbAt s q m := by
      rw [hs5, nbAt_setNb_other_level _ _ _ _ _ hm]
      exact h4
    by_cases hmem2 : idA ∈ nbAt s5 idB level
    · rw [if_pos hmem2]
      exact h5
    · rw [if_neg hmem2]
      rw [nbAt_setNb_other_level _ _ _ _ _ hm]
      exact h5

theorem noSelfLoopU_addBi {s : HNSW} (h : NoSelfLoopU s) (idA idB : String)
    (level : Nat) (hab : idA ≠ idB) :
    NoSelfLoopU (addBidirectionalConnections s idA idB level) := by
  unfold addBidirectionalConnections
  simp only
  set s1 := lazyInitNb s idA level with hs1
  set s2 := lazyInitNb s1 idB level with hs2
  have h2 : NoSelfLoopU s2 :=
    noSelfLoopU_lazyInitNb (noSelfLoopU_lazyInitNb h idA level) idB level
  set s3 := setNb s2 idA level ((nbAt s2 idA level).filter (fun u => u ≠ ""))
    with hs3
  have h3 : NoSelfLoopU s3 := by
    refine noSelfLoopU_setNb h2 idA level (fun hc => ?_)
    exact h2 idA level (List.mem_of_mem_filter hc)
  set s4 := setNb s3 idB level ((nbAt s3 idB level).filter (fun u => u ≠ ""))
    with hs4
  have h4 : NoSelfLoopU s4 := by
    refine noSelfLoopU_setNb h3 idB level (fun hc => ?_)
    exact h3 idB level (List.mem_of_mem_filter hc)
  by_cases hmem : idB ∈ nbAt s4 idA level
  · rw [if_pos hmem]
    by_cases hmem2 : idA ∈ nbAt s4 idB level
    · rw [if_pos hmem2]
      exact h4
    · rw [if_neg hmem2]
      refine noSelfLoopU_setNb h4 idB level (fun hc => ?_)
      rcases List.mem_append.mp hc with hc2 | hc2
      · exact h4 idB level hc2
      · have hEq : idB = idA := by simpa using hc2
        exact hab hEq.symm
  · rw [if_neg hmem]
    set s5 := setNb s4 idA level (nbAt s4 idA level ++ [idB]) with hs5
    have h5 : NoSelfLoopU s5 := by
      refine noSelfLoopU_setNb h4 idA level (fun hc => ?_)
      rcases List.mem_append.mp hc with hc2 | hc2
      · exact h4 idA level hc2
      · have hEq : idA = idB := by simpa using hc2
        exact hab hEq
    by_cases hmem2 : idA ∈ nbAt s5 idB level
    · rw [if_pos hmem2]
      exact h5
    · rw [if_neg hmem2]
      refine noSelfLoopU_setNb h5 idB level (fun hc => ?_)
      rcases List.mem_append.mp hc with hc2 | hc2
      · exact h5 idB level hc2
      · have hEq : idB = idA := by simpa using hc2
        exact hab hEq.symm

theorem mem_pq_fold_src {sim : SimFun} {s : HNSW} {w : List ℚ} :
    ∀ (lst : List String) (q0 : List (ℚ × String)) (x : ℚ × String),
      x ∈ lst.foldl (fun q nbId =>
          match mapGet s.nodes nbId with
          | some nn => pqPush q (sim w nn.vector) nbId
          | none => q) q0 →
      x.2 ∈ lst ∨ x ∈ q0 := by
  intro lst
  induction lst with
  | nil => intro q0 x hx; exact Or.inr hx
  | cons nbId rest ih =>
    intro q0 x hx
    simp only [List.foldl_cons] at hx
    cases hg : mapGet s.nodes nbId with
    | none =>
      rw [hg] at hx
      rcases ih q0 x hx with h | h
      · exact Or.inl (by simp [h])
      · exact Or.inr h
    | some nn =>
      rw [hg] at hx
      rcases ih _ x hx with h | h
      · exact Or.inl (by simp [h])
      · rcases (mem_pqPush q0 (sim w nn.vector) nbId x).mp h with rfl | h2
        · exact Or.inl (by simp)
        · exact Or.inr h2

theorem noSelfLoopU_shrink {sim : SimFun} {s : HNSW} {id : String}
    {level : Nat} (h : NoSelfLoopU s) {s2 : HNSW} {a : Unit}
    (heq : shrinkConnectionsIfNeeded sim s id level = .ok s2 a) :
    NoSelfLoopU s2 ∧ ∀ q m, m ≠ level → nbAt s2 q m = nbAt s q m := by
  unfold shrinkConnectionsIfNeeded at heq
  cases hg : mapGet s.nodes id with
  | none =>
    rw [hg] at heq
    cases heq
    exact ⟨h, fun _ _ _ => rfl⟩
  | some node =>
    rw [hg] at heq
    dsimp only at heq
    cases hj : jsGet node.neighbors level with
    | none => rw [hj] at heq; cases heq
    | some lst =>
      rw [hj] at heq
      dsimp only at heq
      by_cases hlen : lst.length > s.M
      · rw [if_pos hlen] at heq
        cases heq
        have hlst : lst = nbAt s id level := by
          unfold nbAt
          rw [hg]
          dsimp only
          rw [hj]
          rfl
        constructor
        · refine noSelfLoopU_setNb h id level (fun hc => ?_)
          obtain ⟨c, hcmem, hcid⟩ := List.mem_map.mp hc
          rcases mem_pq_fold_src lst [] c (mem_selectNeighbors hcmem) with
            hm | hm
          · rw [hcid] at hm
            rw [hlst] at hm
            exact h id level hm
          · cases hm
        · intro q m hm
          exact nbAt_setNb_other_level s id level m _ hm q
      · rw [if_neg hlen] at heq
        cases heq
        exact ⟨h, fun _ _ _ => rfl⟩

theorem slSeed_keep (sim : SimFun) (s : HNSW) (query : List ℚ)
    (T : String → Prop) :
    ∀ (eps visited : List String) (cand found : List (ℚ × String)),
      (∀ e ∈ eps, T e) → (∀ c ∈ cand, T c.2) → (∀ c ∈ found, T c.2) →
      ∀ v c f, slSeed sim s query eps visited cand found = some (v, c, f) →
        (∀ x ∈ c, T x.2) ∧ (∀ x ∈ f, T x.2) := by
  intro eps
  induction eps with
  | nil =>
    intro visited cand found _ hc hf v c f heq
    cases heq
    exact ⟨hc, hf⟩
  | cons e rest ih =>
    intro visited cand found heps hc hf v c f heq
    simp only [slSeed] at heq
    cases hg : mapGet s.nodes e with
    | none => rw [hg] at heq; cases heq
    | some n =>
      rw [hg] at heq
      dsimp only at heq
      have hrest : ∀ x ∈ rest, T x := fun x hx => heps x (by simp [hx])
      by_cases hv : visited.contains e
      · rw [if_pos hv] at heq
        exact ih visited cand found hrest hc hf v c f heq
      · rw [if_neg hv] at heq
        refine ih _ _ _ hrest ?_ ?_ v c f heq
        · intro x hx
          rcases (mem_pqPush cand (sim query n.vector) e x).mp hx with rfl | hx2
          · exact heps e (by simp)
          · exact hc x hx2
        · intro x hx
          rcases (mem_pqPush found (sim query n.vector) e x).mp hx with rfl | hx2
          · exact heps e (by simp)
          · exact hf x hx2

theorem slNbrs_keep (sim : SimFun) (s : HNSW) (query : List ℚ) (ef : Nat)
    (T : String → Prop) :
    ∀ (nbrs visited : List String) (cand found : List (ℚ × String)),
      (∀ nb ∈ nbrs, T nb) → (∀ c ∈ cand, T c.2) → (∀ c ∈ found, T c.2) →
      ∀ v c f, slNbrs sim s query ef nbrs visited cand found = some (v, c, f) →
        (∀ x ∈ c, T x.2) ∧ (∀ x ∈ f, T x.2) := by
  intro nbrs
  induction nbrs with
  | nil =>
    intro visited cand found _ hc hf v c f heq
    cases heq
    exact ⟨hc, hf⟩
  | cons nb rest ih =>
    intro visited cand found hnb hc hf v c f heq
    simp only [slNbrs] at heq
    have hrest : ∀ x ∈ rest, T x := fun x hx => hnb x (by simp [hx])
    by_cases hcond : nb ≠ "" ∧ ¬ visited.contains nb
    · rw [if_pos hcond] at heq
      cases hg : mapGet s.nodes nb with
      | none => rw [hg] at heq; cases heq
      | some nn =>
        rw [hg] at heq
        dsimp only at heq
        by_cases hguard : found.length ≥ ef ∧ found.getLast? = none
        · rw [if_pos hguard] at heq
          cases heq
        · rw [if_neg hguard] at heq
          by_cases hpush : (if found.length < ef then true
              else match found.getLast? with
                   | none => true
                   | some f => decide (sim query nn.vector > f.1)) = true
          · rw [if_pos hpush] at heq
            refine ih _ _ _ hrest ?_ ?_ v c f heq
            · intro x hx
              rcases (mem_pqPush cand (sim query nn.vector) nb x).mp hx with
                rfl | hx2
              · exact hnb nb (by simp)
              · exact hc x hx2
            · intro x hx
              have hx1 : x ∈ pqPush found (sim query nn.vector) nb := by
                by_cases hlen : (pqPush found (sim query nn.vector) nb).length
                    > ef
                · rw [if_pos hlen] at hx
                  exact (List.dropLast_sublist _).subset hx
                · rw [if_neg hlen] at hx
                  exact hx
              rcases (mem_pqPush found (sim query nn.vector) nb x).mp hx1 with
                rfl | hx2
              · exact hnb nb (by simp)
              · exact hf x hx2
          · rw [if_neg hpush] at heq
            exact ih _ _ _ hrest hc hf v c f heq
    · rw [if_neg hcond] at heq
      exact ih _ _ _ hrest hc hf v c f heq

theorem slLoop_keep (sim : SimFun) (query : List ℚ) (ef level : Nat)
    (T : String → Prop) (s0 : HNSW)
    (hTnb : ∀ q y, y ∈ nbAt s0 q level → T y) :
    ∀ (fuel : Nat) (s : HNSW) (visited : List String)
      (cand found : List (ℚ × String)), StateFrame s0 s →
      (∀ c ∈ cand, T c.2) → (∀ c ∈ found, T c.2) →
      ∀ s2 out, slLoop sim query ef level fuel s visited cand found
          = .ok s2 out →
        ∀ c ∈ out, T c.2 := by
  intro fuel
  induction fuel with
  | zero =>
    intro s visited cand found _ _ _ s2 out heq
    cases heq
  | succ fuel ih =>
    intro s visited cand found hfr hc hf s2 out heq
    cases cand with
    | nil =>
      cases heq
      exact hf
    | cons c crest =>
      obtain ⟨ck, cid⟩ := c
      simp only [slLoop] at heq
      cases hL : found.getLast? with
      | none => rw [hL] at heq; cases heq
      | some flast =>
        rw [hL] at heq
        dsimp only at heq
        by_cases hlt : ck < flast.1
        · rw [if_pos hlt] at heq
          cases heq
          exact hf
        · rw [if_neg hlt] at heq
          cases hg : mapGet s.nodes cid with
          | none => rw [hg] at heq; cases heq
          | some cnode =>
            rw [hg] at heq
            dsimp only at heq
            have hstep : StateFrame s
                (if jsGet cnode.neighbors level = none
                 then setNb s cid level [] else s) := by
              by_cases hnone : jsGet cnode.neighbors level = none
              · simpa [hnone] using stateFrame_lazy_setNb hg level hnone
              · simpa [hnone] using StateFrame.refl_state s
            have hnbrsT : ∀ nb ∈ (jsGet cnode.neighbors level).getD [], T nb := by
              intro nb hnbm
              refine hTnb cid nb ?_
              rw [← hfr.nbAt_eq cid level]
              unfold nbAt
              rw [hg]
              exact hnbm
            cases hnb : slNbrs sim
                (if jsGet cnode.neighbors level = none
                 then setNb s cid level [] else s)
                query ef ((jsGet cnode.neighbors level).getD [])
                visited crest found with
            | none => rw [hnb] at heq; cases heq
            | some t =>
              obtain ⟨v2, c2, f2⟩ := t
              rw [hnb] at heq
              dsimp only at heq
              obtain ⟨hc2, hf2⟩ := slNbrs_keep sim _ query ef T
                ((jsGet cnode.neighbors level).getD []) visited crest found
                hnbrsT (fun x hx => hc x (by simp [hx])) hf v2 c2 f2 hnb
              exact ih _ v2 c2 f2 (hfr.comp_state hstep) hc2 hf2 s2 out heq

theorem searchLayer_keep (sim : SimFun) (s : HNSW) (query : List ℚ)
    (eps : List String) (ef level fuel : Nat) (T : String → Prop)
    (hTnb : ∀ q y, y ∈ nbAt s q level → T y) (hTeps : ∀ e ∈ eps, T e) :
    ∀ s2 out, searchLayer sim s query eps ef level fuel = .ok s2 out →
      ∀ c ∈ out, T c.2 := by
  intro s2 out heq
  unfold searchLayer at heq
  cases hs : slSeed sim s query eps [] [] [] with
  | none => rw [hs] at heq; cases heq
  | some t =>
    obtain ⟨v, c, f⟩ := t
    rw [hs] at heq
    obtain ⟨hcT, hfT⟩ := slSeed_keep sim s query T eps [] [] [] hTeps
      (by simp) (by simp) v c f hs
    exact slLoop_keep sim query ef level T s hTnb fuel s v c f
      (StateFrame.refl_state s) hcT hfT s2 out heq

theorem addBiFold_noSelf (nodeId : String) (i : Nat) :
    ∀ (selected : List String) (s : HNSW), NoSelfLoopU s →
      (∀ nid ∈ selected, nid ≠ nodeId) →
      NoSelfLoopU (selected.foldl (fun st nid =>
          match mapGet st.nodes nid with
          | none => st
          | some _ => addBidirectionalConnections st nodeId nid i) s) ∧
      ∀ q m, m ≠ i → nbAt (selected.foldl (fun st nid =>
          match mapGet st.nodes nid with
          | none => st
          | some _ => addBidirectionalConnections st nodeId nid i) s) q m
        = nbAt s q m := by
  intro selected
  induction selected with
  | nil =>
    intro s hns _
    exact ⟨hns, fun _ _ _ => rfl⟩
  | cons nid rest ih =>
    intro s hns hsel
    simp only [List.foldl_cons]
    have hrest : ∀ x ∈ rest, x ≠ nodeId := fun x hx => hsel x (by simp [hx])
    cases hg : mapGet s.nodes nid with
    | none => exact ih s hns hrest
    | some n =>
      have hab : nodeId ≠ nid := fun hc => (hsel nid (by simp)) hc.symm
      obtain ⟨hns2, heq2⟩ := ih (addBidirectionalConnections s nodeId nid i)
        (noSelfLoopU_addBi hns nodeId nid i hab) hrest
      refine ⟨hns2, fun q m hm => ?_⟩
      rw [heq2 q m hm, nbAt_addBi_other_level s nodeId nid i m hm q]

theorem shrinkFold_noSelf (sim : SimFun) (i : Nat) :
    ∀ (selected : List String) (s : HNSW), NoSelfLoopU s →
      ∀ s3 a, shrinkFold sim s selected i = .ok s3 a →
        NoSelfLoopU s3 ∧ ∀ q m, m ≠ i → nbAt s3 q m = nbAt s q m := by
  intro selected
  induction selected with
  | nil =>
    intro s hns s3 a heq
    cases heq
    exact ⟨hns, fun _ _ _ => rfl⟩
  | cons nid rest ih =>
    intro s hns s3 a heq
    simp only [shrinkFold] at heq
    cases hg : mapGet s.nodes nid with
    | none =>
      rw [hg] at heq
      exact ih s hns s3 a heq
    | some n =>
      rw [hg] at heq
      dsimp only at heq
      cases hsr : shrinkConnectionsIfNeeded sim s nid i with
      | err sE m => rw [hsr] at heq; cases heq
      | fuelOut sE => rw [hsr] at heq; cases heq
      | ok sS aS =>
        rw [hsr] at heq
        dsimp only at heq
        obtain ⟨hnsS, heqS⟩ := noSelfLoopU_shrink hns hsr
        obtain ⟨hns3, heq3⟩ := ih sS hnsS s3 a heq
        refine ⟨hns3, fun q m hm => ?_⟩
        rw [heq3 q m hm, heqS q m hm]

theorem angLoop1_keep (sim : SimFun) (query : List ℚ) (fuel : Nat)
    (nodeId : String) :
    ∀ (lvls : List Nat) (s : HNSW) (eps : List String),
      NoSelfLoopU s → NotRefU s nodeId → (∀ e ∈ eps, e ≠ nodeId) →
      ∀ s1 eps1, angLoop1 sim query fuel lvls s eps = .ok s1 eps1 →
        NoSelfLoopU s1 ∧ NotRefU s1 nodeId ∧ ∀ e ∈ eps1, e ≠ nodeId := by
  intro lvls
  induction lvls with
  | nil =>
    intro s eps hns hnr heps s1 eps1 heq
    cases heq
    exact ⟨hns, hnr, heps⟩
  | cons i rest ih =>
    intro s eps hns hnr heps s1 eps1 heq
    simp only [angLoop1] at heq
    cases hsl : searchLayer sim s query eps 1 i fuel with
    | err sE m => rw [hsl] at heq; cases heq
    | fuelOut sE => rw [hsl] at heq; cases heq
    | ok sE out =>
      rw [hsl] at heq
      dsimp only at heq
      have hfr : StateFrame s sE := by
        simpa [hsl, Res.state] using searchLayer_frame sim s query eps 1 i fuel
      have hT : ∀ c ∈ out, c.2 ≠ nodeId := by
        refine searchLayer_keep sim s query eps 1 i fuel (fun x => x ≠ nodeId)
          ?_ heps sE out hsl
        intro q y hy hc
        subst hc
        exact hnr q i hy
      have hepsT : ∀ e ∈ (match out with
          | [] => eps
          | c :: _ => [c.2]), e ≠ nodeId := by
        cases out with
        | nil => exact heps
        | cons c crest =>
          intro e he
          have : e = c.2 := by simpa using he
          subst this
          exact hT c (by simp)
      exact ih sE _ (noSelfLoopU_stateFrame hfr hns)
        (notRefU_stateFrame hfr hnr) hepsT s1 eps1 heq

theorem angLoop2_noSelf (sim : SimFun) (query : List ℚ) (nodeId : String)
    (fuel : Nat) :
    ∀ (lvls : List Nat), lvls.Nodup →
      ∀ (s : HNSW) (eps : List String), NoSelfLoopU s →
        (∀ l ∈ lvls, ∀ q, nodeId ∉ nbAt s q l) →
        (∀ e ∈ eps, e ≠ nodeId) →
        ∀ s2 a, angLoop2 sim query nodeId fuel lvls s eps = .ok s2 a →
          NoSelfLoopU s2 := by
  intro lvls
  induction lvls with
  | nil =>
    intro _ s eps hns _ _ s2 a heq
    cases heq
    exact hns
  | cons i rest ih =>
    intro hnd s eps hns hlv heps s2 a heq
    have hndr : rest.Nodup := (List.nodup_cons.mp hnd).2
    have hinr : i ∉ rest := (List.nodup_cons.mp hnd).1
    simp only [angLoop2] at heq
    cases hsl : searchLayer sim s query eps s.efConstruction i fuel with
    | err sE m => rw [hsl] at heq; cases heq
    | fuelOut sE => rw [hsl] at heq; cases heq
    | ok sE out =>
      rw [hsl] at heq
      dsimp only at heq
      have hfr : StateFrame s sE := by
        simpa [hsl, Res.state] using searchLayer_frame sim s query eps
          s.efConstruction i fuel
      have hnsE : NoSelfLoopU sE := noSelfLoopU_stateFrame hfr hns
      have hT : ∀ c ∈ out, c.2 ≠ nodeId := by
        refine searchLayer_keep sim s query eps s.efConstruction i fuel
          (fun x => x ≠ nodeId) ?_ heps sE out hsl
        intro q y hy hc
        subst hc
        exact hlv i (by simp) q hy
      have hselT : ∀ nid ∈ (selectNeighbors out sE.M).map Prod.snd,
          nid ≠ nodeId := by
        intro nid hn
        obtain ⟨c, hcmem, rfl⟩ := List.mem_map.mp hn
        exact hT c (mem_selectNeighbors hcmem)
      obtain ⟨hnsF, heqF⟩ := addBiFold_noSelf nodeId i
        ((selectNeighbors out sE.M).map Prod.snd) sE hnsE hselT
      cases hsf : shrinkFold sim
          (((selectNeighbors out sE.M).map Prod.snd).foldl (fun st nid =>
            match mapGet st.nodes nid with
            | none => st
            | some _ => addBidirectionalConnections st nodeId nid i) sE)
          ((selectNeighbors out sE.M).map Prod.snd) i with
      | err sX m => rw [hsf] at heq; cases heq
      | fuelOut sX => rw [hsf] at heq; cases heq
      | ok s3 a3 =>
        rw [hsf] at heq
        dsimp only at heq
        obtain ⟨hns3, heq3⟩ := shrinkFold_noSelf sim i _ _ hnsF s3 a3 hsf
        refine ih hndr s3 (out.map Prod.snd) hns3 ?_ ?_ s2 a heq
        · intro l hl q
          have hli : l ≠ i := fun hc => hinr (hc ▸ hl)
          rw [heq3 q l hli, heqF q l hli, hfr.nbAt_eq q l]
          exact hlv l (by simp [hl]) q
        · intro e he
          obtain ⟨c, hcmem, rfl⟩ := List.mem_map.mp he
          exact hT c hcmem

theorem addNodeToGraph_noSelf (sim : SimFun) (s : HNSW) (nodeId : String)
    (nodeInsertionLevel fuel : Nat) (hns : NoSelfLoopU s)
    (hnr : NotRefU s nodeId) (hepT : s.entryPointId ≠ nodeId) :
    ∀ s2 a, addNodeToGraphOptimized sim s nodeId nodeInsertionLevel fuel
        = .ok s2 a →
      NoSelfLoopU s2 := by
  intro s2 a heq
  unfold addNodeToGraphOptimized at heq
  by_cases hep : s.entryPointId = ""
  · rw [if_pos hep] at heq
    cases heq
    exact hns
  · rw [if_neg hep] at heq
    cases hgn : mapGet s.nodes nodeId with
    | none => rw [hgn] at heq; cases heq
    | some node =>
      rw [hgn] at heq
      dsimp only at heq
      have heps0 : ∀ e ∈ (match mapGet s.nodes s.entryPointId with
          | some _ => [s.entryPointId]
          | none => []), e ≠ nodeId := by
        cases hge : mapGet s.nodes s.entryPointId with
        | none => simp
        | some n =>
          intro e he
          have : e = s.entryPointId := by simpa using he
          subst this
          exact hepT
      cases h1 : angLoop1 sim node.vector fuel
          (downTo s.levelMax (nodeInsertionLevel + 1)) s
          (match mapGet s.nodes s.entryPointId with
           | some _ => [s.entryPointId]
           | none => []) with
      | err sE m => rw [h1] at heq; cases heq
      | fuelOut sE => rw [h1] at heq; cases heq
      | ok s1 eps1 =>
        rw [h1] at heq
        dsimp only at heq
        obtain ⟨hns1, hnr1, heps1⟩ := angLoop1_keep sim node.vector fuel nodeId
          (downTo s.levelMax (nodeInsertionLevel + 1)) s _ hns hnr heps0 s1
          eps1 h1
        cases h2 : angLoop2 sim node.vector nodeId fuel
            (downTo (min s1.levelMax nodeInsertionLevel) 0) s1 eps1 with
        | err sE m => rw [h2] at heq; cases heq
        | fuelOut sE => rw [h2] at heq; cases heq
        | ok sW aW =>
          rw [h2] at heq
          dsimp only at heq
          have hnsW : NoSelfLoopU sW := angLoop2_noSelf sim node.vector nodeId
            fuel (downTo (min s1.levelMax nodeInsertionLevel) 0)
            (downTo_nodup _ _) s1 eps1 hns1
            (fun l _ q => hnr1 q l) heps1 sW aW h2
          by_cases hlm : sW.levelMax < nodeInsertionLevel
          · rw [if_pos hlm] at heq
            cases heq
            exact hnsW
          · rw [if_neg hlm] at heq
            cases heq
            exact hnsW

theorem noSelfLoopU_overwrite {s s' : HNSW} (h : NoSelfLoopU s) (id : String)
    (node : AstroNode) (hnb : node.neighbors = [])
    (hnodes : s'.nodes = mapSet s.nodes id node) : NoSelfLoopU s' := by
  intro q l
  by_cases hq : q = id
  · subst hq
    unfold nbAt
    rw [hnodes, mapGet_mapSet_self]
    dsimp only
    rw [hnb, jsGet_nil]
    simp
  · unfold nbAt
    rw [hnodes, mapGet_mapSet_ne _ _ _ _ hq]
    exact h q l

theorem notRefU_overwrite {s s' : HNSW} {id : String} (h : NotRefU s id)
    (node : AstroNode) (hnb : node.neighbors = [])
    (hnodes : s'.nodes = mapSet s.nodes id node) : NotRefU s' id := by
  intro q l
  by_cases hq : q = id
  · subst hq
    unfold nbAt
    rw [hnodes, mapGet_mapSet_self]
    dsimp only
    rw [hnb, jsGet_nil]
    simp
  · unfold nbAt
    rw [hnodes, mapGet_mapSet_ne _ _ _ _ hq]
    exact h q l

theorem closedU_overwriteAny {s s' : HNSW} (hcl : ClosedU s) (id : String)
    (node : AstroNode) (hnb : node.neighbors = [])
    (hnodes : s'.nodes = mapSet s.nodes id node) : ClosedU s' := by
  intro q l y hy
  by_cases hq : q = id
  · subst hq
    unfold nbAt at hy
    rw [hnodes, mapGet_mapSet_self] at hy
    dsimp only at hy
    rw [hnb, jsGet_nil] at hy
    simp at hy
  · unfold nbAt at hy
    rw [hnodes, mapGet_mapSet_ne _ _ _ _ hq] at hy
    have hy2 : y ∈ nbAt s q l := hy
    rcases hcl q l y hy2 with he | hd
    · exact Or.inl he
    · refine Or.inr ?_
      unfold domHas at hd ⊢
      rw [hnodes]
      by_cases hyid : y = id
      · subst hyid
        simp [mapGet_mapSet_self]
      · rw [mapGet_mapSet_ne _ _ _ _ hyid]
        exact hd

/-- Claim C6 as amended: no-self-loop is preserved by addPoint for an id
that no adjacency list references and that is not the entry point — in
particular for every genuinely fresh id.  It is not an invariant of all
operations: updatePoint tombstones and re-inserts an id that old
neighbors still reference, the search then reaches the re-inserted node
through those stale edges and selects it as its own neighbor, and
addBidirectionalConnections applied to the node and itself records a
self-loop (see the counterexample). -/
theorem claim6_amended (sim : SimFun) (s : HNSW) (id : String) (v : List ℚ)
    (r : ℚ) (fuel : Nat)
    (hnd : (s.nodes.map Prod.fst).Nodup) (hcl : Closed s)
    (hnsl : NoSelfLoop s)
    (hnr : ∀ p ∈ s.nodes, ∀ l ∈ List.range p.2.neighbors.length,
      id ∉ (jsGet p.2.neighbors l).getD [])
    (hep : s.entryPointId ≠ id) (hef : 1 ≤ s.efConstruction)
    (s2 : HNSW) (a : Unit) (h : addPoint sim s id v r fuel = .ok s2 a) :
    NoSelfLoop s2 := by
  unfold addPoint at h
  by_cases hv : v = []
  · rw [if_pos hv] at h
    cases h
    exact hnsl
  · rw [if_neg hv] at h
    by_cases hb : (match s.d with
        | some dd => v.length != dd
        | none => false) = true
    · rw [if_pos hb] at h
      cases h
    · rw [if_neg hb] at h
      have h3 : addNodeToGraphOptimized sim
          { metric := s.metric, d := some v.length, M := s.M,
            efConstruction := s.efConstruction,
            levelMax := max s.levelMax (selectLevel s.probs r),
            entryPointId := s.entryPointId,
            nodes := mapSet s.nodes id
              (astroNodeNew id v (selectLevel s.probs r) s.M),
            probs := s.probs } id (selectLevel s.probs r) fuel
          = .ok s2 a := h
      set s3 : HNSW :=
        { metric := s.metric, d := some v.length, M := s.M,
          efConstruction := s.efConstruction,
          levelMax := max s.levelMax (selectLevel s.probs r),
          entryPointId := s.entryPointId,
          nodes := mapSet s.nodes id
            (astroNodeNew id v (selectLevel s.probs r) s.M),
          probs := s.probs } with hs3
      have hnsU : NoSelfLoopU s3 :=
        noSelfLoopU_overwrite (noSelfLoop_U hnsl) id _ rfl (by rw [hs3])
      have hnrU : NotRefU s3 id :=
        notRefU_overwrite (notRef_U hnr) _ rfl (by rw [hs3])
      have hepT : s3.entryPointId ≠ id := hep
      have hns2 : NoSelfLoopU s2 :=
        addNodeToGraph_noSelf sim s3 id (selectLevel s.probs r) fuel hnsU hnrU
          hepT s2 a h3
      have hcl3 : ClosedU s3 :=
        closedU_overwriteAny (closed_closedU hcl) id _ rfl (by rw [hs3])
      have hdom3 : domHas s3 id := by
        unfold domHas
        rw [hs3]
        simp [mapGet_mapSet_self]
      obtain ⟨_, hok⟩ := addNodeToGraph_safe sim s3 id (selectLevel s.probs r)
        fuel hcl3 hdom3 hef
      obtain ⟨hkeys, _⟩ := hok s2 a h3
      have hnd2 : (s2.nodes.map Prod.fst).Nodup := by
        rw [hkeys, hs3]
        exact nodup_keys_mapSet hnd id _
      exact noSelfLoopU_bounded hnd2 hns2

/-- Witness for the amended C6: inserting the fresh id "c" into the
concrete two-node index leaves the index free of self-loops. -/
theorem claim6_witness :
    NoSelfLoop (addPoint euclidSim1 c3Base "c" [2] 0 60).state := by
  cases hok : addPoint euclidSim1 c3Base "c" [2] 0 60 with
  | ok s2 a =>
    exact claim6_amended euclidSim1 c3Base "c" [2] 0 60
      (by with_unfolding_all decide) (by with_unfolding_all decide)
      (by with_unfolding_all decide) (by with_unfolding_all decide)
      (by with_unfolding_all decide) (by with_unfolding_all decide)
      s2 a hok
  | err s2 m =>
    have hk : (addPoint euclidSim1 c3Base "c" [2] 0 60).isOk = true := by
      with_unfolding_all decide
    rw [hok] at hk
    simp [Res.isOk] at hk
  | fuelOut s2 =>
    have hk : (addPoint euclidSim1 c3Base "c" [2] 0 60).isOk = true := by
      with_unfolding_all decide
    rw [hok] at hk
    simp [Res.isOk] at hk

/-- Counterexample for C6: the no-self-loop invariant does not survive
updatePoint on an existing id.  On the reachable two-node index holding
"a" and "b", updating "b" completes normally and leaves "b" inside its
own adjacency list at level 0: the tombstoned record is replaced, the old
edge from "a" still names "b", the search finds the re-inserted node
through it, and linking the node with itself pushes the self-loop. -/
theorem claim6_counterexample :
    NoSelfLoop c3Base
    ∧ (updatePoint euclidSim1 c3Base "b" [1] 0 60).isOk = true
    ∧ ¬ NoSelfLoop (updatePoint euclidSim1 c3Base "b" [1] 0 60).state
    ∧ "b" ∈ nbAt (updatePoint euclidSim1 c3Base "b" [1] 0 60).state "b" 0 := by
  with_unfolding_all decide

/-! Claim C2: counterexample. -/

/-- A three-point index reached from the constructor with M = 2 (its
probability table has 29 entries, see the header note): the points 0, 1
and 2 on a line under the one-dimensional euclidean kernel.  Its
adjacency is symmetric at every level. -/
def c2Base : HNSW :=
  (addPoint euclidSim1
    ((addPoint euclidSim1
      ((addPoint euclidSim1 (hnswNew 2 200 none Metric.euclidean probsM2)
        "a" [0] 0 200).state)
      "b" [1] 0 200).state)
    "c" [2] 0 200).state

set_option maxRecDepth 100000 in
/-- Counterexample for C2: symmetric adjacency is not an invariant of
insertion.  Inserting "d" at 3 completes normally; "d" links to "c" and
"b", pushing "c" to three neighbors, and shrinkConnectionsIfNeeded trims
"c" back to its top two by similarity — dropping "a" from "c" while "a"
still lists "c".  The resulting index has "c" in the adjacency of the
live node "a" at level 0 while "a" is not in the adjacency of "c". -/
theorem claim2_counterexample :
    SymAdj c2Base
    ∧ (addPoint euclidSim1 c2Base "d" [3] 0 200).isOk = true
    ∧ ¬ SymAdj (addPoint euclidSim1 c2Base "d" [3] 0 200).state
    ∧ "c" ∈ nbAt (addPoint euclidSim1 c2Base "d" [3] 0 200).state "a" 0
    ∧ "a" ∉ nbAt (addPoint euclidSim1 c2Base "d" [3] 0 200).state "c" 0 := by
  with_unfolding_all decide

/-! Claim C8. -/

theorem rebuildProcess_eq_filter (sim : SimFun) (r : ℚ) (fuel : Nat) :
    ∀ (l : List AstroNode) (s : HNSW),
      rebuildProcess sim r fuel s l
        = addPointFold sim r fuel s
            (l.filter (fun n => !n.deleted && n.uniqueid ≠ "")) := by
  intro l
  induction l with
  | nil => intro s; rfl
  | cons n rest ih =>
    intro s
    by_cases hc : n.deleted = false ∧ n.uniqueid ≠ ""
    · have hfil : (!n.deleted && decide (n.uniqueid ≠ "")) = true := by
        simp [hc.1, hc.2]
      simp only [rebuildProcess]
      rw [if_pos hc, List.filter_cons, if_pos hfil]
      simp only [addPointFold]
      cases hadd : addPoint sim s n.uniqueid n.vector r fuel with
      | ok s2 a => exact ih s2
      | err s2 m => rfl
      | fuelOut s2 => rfl
    · have hfil : (!n.deleted && decide (n.uniqueid ≠ "")) = false := by
        by_cases hdel : n.deleted = true
        · simp [hdel]
        · have hdel2 : n.deleted = false := by
            revert hdel; cases n.deleted <;> simp
          have hid : n.uniqueid = "" := by
            rcases not_and_or.mp hc with h1 | h1
            · exact absurd hdel2 h1
            · exact not_not.mp h1
          simp [hdel2, hid]
      simp only [rebuildProcess]
      rw [if_neg hc, List.filter_cons,
        if_neg (by simp only [hfil]; exact Bool.false_ne_true)]
      exact ih s

/-- Claim C8 as amended: rebuildGraphNodes snapshots the records, clears
the node map and the entry point but leaves levelMax unchanged, and then
re-inserts, via addPoint with original id and vector, exactly those prior
records that are not tombstoned and whose id is non-empty (a falsy id is
skipped by the truthiness test; a record's vector, an array, is always
truthy). -/
theorem claim8_amended_rebuild (sim : SimFun) (s : HNSW) (r : ℚ)
    (fuel : Nat) :
    rebuildGraphNodes sim s r fuel = rebuildGraphNodesAmended sim s r fuel := by
  unfold rebuildGraphNodes rebuildGraphNodesAmended
  exact rebuildProcess_eq_filter sim r fuel _ _

/-- An index whose only record has the empty-string id (reachable:
addPoint performs no id validation, and the entry point stays "" because
the empty-entry branch re-assigns the empty id). -/
def c8EmptyId : HNSW :=
  (addPoint euclidSim1 (hnswNew 16 200 none Metric.euclidean probsM16)
    "" [5] 0 50).state

/-- The same index with its record tombstoned. -/
def c8Tombstoned : HNSW := removePoint c8EmptyId ""

/-- Counterexample for C8, against the claim's reset-and-reinsert
description (rebuildGraphNodesClaim): the code does not clear levelMax —
after rebuilding an index whose only record is tombstoned, levelMax is
still 7 where the claim demands 0 — and the code skips non-tombstoned
records with a falsy id — the live empty-id record is dropped where the
claim re-inserts it. -/
theorem claim8_counterexample :
    rebuildGraphNodes euclidSim1 c8Tombstoned 0 50
      ≠ rebuildGraphNodesClaim euclidSim1 c8Tombstoned 0 50
    ∧ (rebuildGraphNodes euclidSim1 c8Tombstoned 0 50).state.levelMax = 7
    ∧ (rebuildGraphNodesClaim euclidSim1 c8Tombstoned 0 50).state.levelMax = 0
    ∧ rebuildGraphNodes euclidSim1 c8EmptyId 0 50
      ≠ rebuildGraphNodesClaim euclidSim1 c8EmptyId 0 50
    ∧ (rebuildGraphNodes euclidSim1 c8EmptyId 0 50).state.nodes.map Prod.fst
      = []
    ∧ (rebuildGraphNodesClaim euclidSim1 c8EmptyId 0 50).state.nodes.map
        Prod.fst = [""] := by
  with_unfolding_all decide

/-! Claim C4. -/

theorem forall2_map_self {R : (String × AstroNode) → (String × AstroNode) → Prop}
    {f : (String × AstroNode) → (String × AstroNode)} (hf : ∀ p, R p (f p)) :
    ∀ l : NodeMap, List.Forall₂ R l (l.map f) := by
  intro l
  induction l with
  | nil => exact List.Forall₂.nil
  | cons p rest ih => exact List.Forall₂.cons (hf p) ih

theorem foldl_mapSet_of_nodup (g : String × NodeJson → AstroNode) :
    ∀ (l : List (String × NodeJson)) (acc : NodeMap),
      ((acc.map Prod.fst) ++ l.map Prod.fst).Nodup →
      l.foldl (fun m p => mapSet m p.1 (g p)) acc
        = acc ++ l.map (fun p => (p.1, g p)) := by
  intro l
  induction l with
  | nil => intro acc _; simp
  | cons p rest ih =>
    intro acc hnd
    have hnot : mapGet acc p.1 = none := by
      cases hg : mapGet acc p.1 with
      | none => rfl
      | some n =>
        have hmem : p.1 ∈ acc.map Prod.fst :=
          (mapGet_isSome_iff_mem acc p.1).mp (by simp [hg])
        have hdisj := List.disjoint_of_nodup_append hnd
        exact absurd (by simp : p.1 ∈ (p :: rest).map Prod.fst) (hdisj hmem)
    simp only [List.foldl_cons]
    rw [mapSet_of_get_none acc p.1 (g p) hnot]
    have hnd2 : (((acc ++ [(p.1, g p)]).map Prod.fst)
        ++ rest.map Prod.fst).Nodup := by
      rw [List.map_append]
      simp only [List.map_cons, List.map_nil]
      rw [List.map_cons, List.append_cons] at hnd
      exact hnd
    rw [ih (acc ++ [(p.1, g p)]) hnd2]
    simp

theorem map_optionMap_id (x : List (Option (List String))) :
    x.map (Option.map (fun l => l)) = x := by
  induction x with
  | nil => rfl
  | cons a rest ih =>
    cases a <;> simp [ih]

/-- Claim C4: the serialization round trip.  For every index with
duplicate-free keys (every Map has them), fromJSON of toJSON yields an
index with the same M, efConstruction, levelMax and entryPointId, the
same node ids in the same order, and for every node the same identity,
level, per-level adjacency (holes included) and tombstone flag, the
vector equal modulo the narrowing of each element to a 32-bit float
(the `narrow` parameter). -/
theorem claim4_roundtrip (s : HNSW) (probs : List ℚ) (narrow : ℚ → ℚ)
    (hnd : (s.nodes.map Prod.fst).Nodup) :
    (HNSW.fromJSON (HNSW.toJSON s) probs narrow).M = s.M
    ∧ (HNSW.fromJSON (HNSW.toJSON s) probs narrow).efConstruction
        = s.efConstruction
    ∧ (HNSW.fromJSON (HNSW.toJSON s) probs narrow).levelMax = s.levelMax
    ∧ (HNSW.fromJSON (HNSW.toJSON s) probs narrow).entryPointId
        = s.entryPointId
    ∧ (HNSW.fromJSON (HNSW.toJSON s) probs narrow).nodes.map Prod.fst
        = s.nodes.map Prod.fst
    ∧ List.Forall₂ (fun p q => q.1 = p.1 ∧ q.2.uniqueid = p.2.uniqueid
        ∧ q.2.level = p.2.level ∧ q.2.neighbors = p.2.neighbors
        ∧ q.2.deleted = p.2.deleted ∧ q.2.vector = p.2.vector.map narrow)
        s.nodes (HNSW.fromJSON (HNSW.toJSON s) probs narrow).nodes := by
  have hnodes : (HNSW.fromJSON (HNSW.toJSON s) probs narrow).nodes
      = (HNSW.toJSON s).nodes.map (fun p =>
          (p.1, AstroNode.parse { p.2 with vector := p.2.vector.map narrow })) := by
    show (HNSW.toJSON s).nodes.foldl _ [] = _
    rw [foldl_mapSet_of_nodup _ (HNSW.toJSON s).nodes [] (by
      simp only [List.map_nil, List.nil_append]
      show ((s.nodes.map (fun p => (p.1, p.2.toJSON))).map Prod.fst).Nodup
      rw [List.map_map]
      exact hnd)]
    simp
  refine ⟨rfl, rfl, rfl, rfl, ?_, ?_⟩
  · rw [hnodes]
    show ((s.nodes.map (fun p => (p.1, p.2.toJSON))).map _).map Prod.fst = _
    rw [List.map_map, List.map_map]
    rfl
  · rw [hnodes]
    show List.Forall₂ _ s.nodes ((s.nodes.map (fun p => (p.1, p.2.toJSON))).map _)
    rw [List.map_map]
    refine forall2_map_self (fun p => ?_) s.nodes
    refine ⟨rfl, rfl, rfl, ?_, rfl, rfl⟩
    show (p.2.neighbors.map (Option.map (fun l => l))) = p.2.neighbors
    exact map_optionMap_id p.2.neighbors

/-- Witness for C4: the round trip of the concrete two-node index keeps
the node ids. -/
theorem claim4_witness :
    (HNSW.fromJSON (HNSW.toJSON c3Base) probsM16 (fun x => x)).nodes.map
        Prod.fst
      = c3Base.nodes.map Prod.fst :=
  (claim4_roundtrip c3Base probsM16 (fun x => x)
    (by with_unfolding_all decide)).2.2.2.2.1

end AstroHNSW
